import Mathlib

/-!
Verification development for the diff core of `seodiff` (`src/diff.py`).

The program's core is:
* `compute_diff(text1, text2)` — a thin wrapper over Python's `difflib.ndiff`
  (line 49-54 of `diff.py`);
* `pretty_diff(diff, escape_html, strip_whitespace, format_for_ai, show_only_changes)`
  — the renderer (lines 77-123 of `diff.py`).

We embed the relevant parts of CPython's `difflib` (`SequenceMatcher`,
`Differ`, `ndiff`) and of `html.escape`, plus the two functions of `diff.py`,
shallowly in Lean.  Python strings are modelled as Lean `String`
(logically a list of characters), Python ints as `Nat`/`Int`.
Python computes the similarity ratios of `difflib` in IEEE double precision;
we model those ratios as exact rationals (`ℚ`).  None of the theorems below
depends on which alignment the ratio tie-breaking selects, and in all concrete
evaluations the compared values are far from the cutoffs, so the modelling
is faithful for every statement made here.
-/

namespace SeoDiff

/-! ## Python string primitives -/

/-- The characters for which Python's `str.isspace` returns `True`
(used by `str.strip()`, `str.rstrip()` and `difflib._keep_original_ws`). -/
def py_whitespace : List Char :=
  ['\t', '\n', Char.ofNat 0x0b, Char.ofNat 0x0c, '\r',
   Char.ofNat 0x1c, Char.ofNat 0x1d, Char.ofNat 0x1e, Char.ofNat 0x1f, ' ',
   Char.ofNat 0x85, Char.ofNat 0xa0, Char.ofNat 0x1680,
   Char.ofNat 0x2000, Char.ofNat 0x2001, Char.ofNat 0x2002, Char.ofNat 0x2003,
   Char.ofNat 0x2004, Char.ofNat 0x2005, Char.ofNat 0x2006, Char.ofNat 0x2007,
   Char.ofNat 0x2008, Char.ofNat 0x2009, Char.ofNat 0x200a,
   Char.ofNat 0x2028, Char.ofNat 0x2029, Char.ofNat 0x202f,
   Char.ofNat 0x205f, Char.ofNat 0x3000]

def py_is_space (c : Char) : Bool := c ∈ py_whitespace

/-- Python `s.strip()` (no argument): remove leading and trailing whitespace. -/
def py_strip (s : String) : String :=
  String.mk (((s.data.dropWhile py_is_space).reverse.dropWhile py_is_space).reverse)

/-- Python `s.rstrip()` (no argument): remove trailing whitespace. -/
def py_rstrip (s : String) : String :=
  String.mk ((s.data.reverse.dropWhile py_is_space).reverse)

/-- Python `s[0]`: the first character, if any (Python raises `IndexError`
on an empty string; callers model that case explicitly). -/
def py_at0 (s : String) : Option Char := s.data.head?

/-- Python `s[n:]`. -/
def py_drop (n : Nat) (s : String) : String := String.mk (s.data.drop n)

/-- Python `s.replace(c, rep)` for a one-character pattern `c`:
replace every occurrence of `c` by `rep`. -/
def replace_char (s : List Char) (c : Char) (rep : List Char) : List Char :=
  s.flatMap (fun x => if x = c then rep else [x])

/-- Python `html.escape(s, quote=True)`: replace `&`, `<`, `>`, `"`, the
apostrophe — in exactly that order (`&` first, so entities are not
double-escaped; the apostrophe becomes the entity with code x27). -/
def html_escape (s : String) : String :=
  let d := replace_char s.data '&' "&amp;".data
  let d := replace_char d '<' "&lt;".data
  let d := replace_char d '>' "&gt;".data
  let d := replace_char d '"' "&quot;".data
  let d := replace_char d '\'' "&#x27;".data
  String.mk d

/-- The line-boundary characters of Python `str.splitlines`. -/
def py_is_linebreak (c : Char) : Bool :=
  c = '\n' || c = '\r' || c = Char.ofNat 0x0b || c = Char.ofNat 0x0c ||
  c = Char.ofNat 0x1c || c = Char.ofNat 0x1d || c = Char.ofNat 0x1e ||
  c = Char.ofNat 0x85 || c = Char.ofNat 0x2028 || c = Char.ofNat 0x2029

def splitlines_go : List Char → List Char → List String
  | [], acc => if acc = [] then [] else [String.mk acc.reverse]
  | '\r' :: '\n' :: rest, acc => String.mk (acc.reverse ++ ['\r', '\n']) :: splitlines_go rest []
  | c :: rest, acc =>
    if py_is_linebreak c then String.mk (acc.reverse ++ [c]) :: splitlines_go rest []
    else splitlines_go rest (c :: acc)

/-- Python `s.splitlines(keepends=True)`. -/
def py_splitlines_keepends (s : String) : List String := splitlines_go s.data []

/-! ## difflib.SequenceMatcher

Generic over the element type: `ndiff` uses it both at the line level
(elements are strings, `isjunk = None`) and at the character level inside
`Differ._fancy_replace` (elements are characters, `isjunk = IS_CHARACTER_JUNK`).
`autojunk` is the constructor default `True` at both call sites. -/

structure Matcher (α : Type) where
  isjunk : Option (α → Bool)
  autojunk : Bool
  a : List α
  b : List α

variable {α : Type} [DecidableEq α] [Inhabited α]

/-- `SequenceMatcher.__chain_b`: `b2j` before junk/popular deletion — for each
element the ascending list of its indices in `b`. -/
def Matcher.b2j_raw (m : Matcher α) (x : α) : List Nat :=
  (List.range m.b.length).filter (fun j => m.b.get? j = some x)

/-- The set `bjunk`: elements of `b` the junk predicate accepts. -/
def Matcher.bjunk (m : Matcher α) (x : α) : Bool :=
  match m.isjunk with
  | none => false
  | some f => decide (x ∈ m.b) && f x

/-- The set `bpopular`: with `autojunk` and `len(b) >= 200`, non-junk elements
occurring more than `len(b) // 100 + 1` times (deleted from `b2j`). -/
def Matcher.bpopular (m : Matcher α) (x : α) : Bool :=
  m.autojunk && decide (200 ≤ m.b.length) && !m.bjunk x &&
    decide (m.b.length / 100 + 1 < (m.b2j_raw x).length)

/-- `b2j.get(x, [])` after `__chain_b` deleted junk and popular keys. -/
def Matcher.b2j (m : Matcher α) (x : α) : List Nat :=
  if m.bjunk x || m.bpopular x then [] else m.b2j_raw x

/-- The inner `for j in b2j.get(a[i], nothing)` loop of `find_longest_match`:
`continue` below `blo`, `break` at `bhi`, otherwise extend the common-run
length ending at `(i, j)` and remember the best.  `j2lenOld` is the dictionary
from the previous `i` (entry `0` = absent, as in `j2len.get(j-1, 0)`); Python's
`j2len.get(-1, 0)` is `0`, hence the `j = 0` guard.  `i + 1 - k` is Python's
`i - k + 1` (the invariant `k ≤ i + 1` makes them equal). -/
def Matcher.flm_scanj (m : Matcher α) (blo bhi : Nat) (j2lenOld : Nat → Nat) (i : Nat) :
    List Nat → (Nat → Nat) → Nat × Nat × Nat → (Nat → Nat) × (Nat × Nat × Nat)
  | [], newj2len, best => (newj2len, best)
  | j :: js, newj2len, best =>
    if j < blo then m.flm_scanj blo bhi j2lenOld i js newj2len best
    else if bhi ≤ j then (newj2len, best)
    else
      let k := (if j = 0 then 0 else j2lenOld (j - 1)) + 1
      let newj2len' : Nat → Nat := fun j' => if j' = j then k else newj2len j'
      if best.2.2 < k then m.flm_scanj blo bhi j2lenOld i js newj2len' (i + 1 - k, j + 1 - k, k)
      else m.flm_scanj blo bhi j2lenOld i js newj2len' best

/-- The dictionary phase of `find_longest_match`: the outer
`for i in range(alo, ahi)` loop. -/
def Matcher.flm_dict (m : Matcher α) (alo ahi blo bhi : Nat) : Nat × Nat × Nat :=
  ((List.range' alo (ahi - alo)).foldl
    (fun st i => m.flm_scanj blo bhi st.1 i (m.b2j (m.a.getD i default)) (fun _ => 0) st.2)
    ((fun _ => 0), (alo, blo, 0))).2

/-- First `while` of `find_longest_match`: extend backwards over non-junk. -/
def Matcher.flm_ext1 (m : Matcher α) (alo blo : Nat) (bi bj k : Nat) : Nat × Nat × Nat :=
  if h : alo < bi ∧ blo < bj ∧ m.bjunk (m.b.getD (bj - 1) default) = false ∧
      m.a.getD (bi - 1) default = m.b.getD (bj - 1) default then
    m.flm_ext1 alo blo (bi - 1) (bj - 1) (k + 1)
  else (bi, bj, k)
termination_by bi
decreasing_by omega

/-- Second `while`: extend forwards over non-junk. -/
def Matcher.flm_ext2 (m : Matcher α) (ahi bhi : Nat) (bi bj k : Nat) : Nat × Nat × Nat :=
  if h : bi + k < ahi ∧ bj + k < bhi ∧ m.bjunk (m.b.getD (bj + k) default) = false ∧
      m.a.getD (bi + k) default = m.b.getD (bj + k) default then
    m.flm_ext2 ahi bhi bi bj (k + 1)
  else (bi, bj, k)
termination_by ahi - k
decreasing_by omega

/-- Third `while`: extend backwards over junk. -/
def Matcher.flm_ext3 (m : Matcher α) (alo blo : Nat) (bi bj k : Nat) : Nat × Nat × Nat :=
  if h : alo < bi ∧ blo < bj ∧ m.bjunk (m.b.getD (bj - 1) default) = true ∧
      m.a.getD (bi - 1) default = m.b.getD (bj - 1) default then
    m.flm_ext3 alo blo (bi - 1) (bj - 1) (k + 1)
  else (bi, bj, k)
termination_by bi
decreasing_by omega

/-- Fourth `while`: extend forwards over junk. -/
def Matcher.flm_ext4 (m : Matcher α) (ahi bhi : Nat) (bi bj k : Nat) : Nat × Nat × Nat :=
  if h : bi + k < ahi ∧ bj + k < bhi ∧ m.bjunk (m.b.getD (bj + k) default) = true ∧
      m.a.getD (bi + k) default = m.b.getD (bj + k) default then
    m.flm_ext4 ahi bhi bi bj (k + 1)
  else (bi, bj, k)
termination_by ahi - k
decreasing_by omega

/-- `SequenceMatcher.find_longest_match(alo, ahi, blo, bhi)`. -/
def Matcher.find_longest_match (m : Matcher α) (alo ahi blo bhi : Nat) : Nat × Nat × Nat :=
  let s := m.flm_dict alo ahi blo bhi
  let s := m.flm_ext1 alo blo s.1 s.2.1 s.2.2
  let s := m.flm_ext2 ahi bhi s.1 s.2.1 s.2.2
  let s := m.flm_ext3 alo blo s.1 s.2.1 s.2.2
  m.flm_ext4 ahi bhi s.1 s.2.1 s.2.2

/-! ### Specification of `find_longest_match`

The lemmas of this subsection are needed before `get_matching_blocks` can be
defined: the termination of its worklist loop rests on the returned match
lying inside the queried rectangle. -/

/-- The match `(i, j, k)` returned for the rectangle `[alo, ahi) × [blo, bhi)`
starts inside the rectangle, fits in it when nonempty, degenerates to the
rectangle's corner when empty, and (when the rectangle is inside the two
sequences) really is a common run of `a` and `b`. -/
def FlmInv (a b : List α) (alo blo ahi bhi : Nat) (r : Nat × Nat × Nat) : Prop :=
  alo ≤ r.1 ∧ blo ≤ r.2.1 ∧
  (r.2.2 = 0 → r.1 = alo ∧ r.2.1 = blo) ∧
  (r.2.2 ≠ 0 → r.1 + r.2.2 ≤ ahi ∧ r.2.1 + r.2.2 ≤ bhi) ∧
  (ahi ≤ a.length → bhi ≤ b.length →
    ∀ t, t < r.2.2 → ∃ x, a.get? (r.1 + t) = some x ∧ b.get? (r.2.1 + t) = some x)

/-- Invariant of the `j2len` dictionary before row `i` is processed: an entry
`f j ≠ 0` is the length of a common run of `a` and `b` ending at `(i-1, j)`,
confined to the query rectangle. -/
def JInvPre (a b : List α) (alo blo ahi bhi i : Nat) (f : Nat → Nat) : Prop :=
  ∀ j, f j ≠ 0 → blo ≤ j ∧ j < bhi ∧ f j ≤ i - alo ∧ f j ≤ i ∧ f j ≤ j + 1 - blo ∧ f j ≤ j + 1 ∧
    (ahi ≤ a.length → bhi ≤ b.length →
      ∀ t, t < f j → ∃ x, a.get? (i - 1 - t) = some x ∧ b.get? (j - t) = some x)

theorem get?_getD {l : List α} {i : Nat} (h : i < l.length) :
    l.get? i = some (l.getD i default) := by
  rw [List.get?_eq_getElem?, List.getD_eq_getElem?_getD, List.getElem?_eq_getElem h]
  rfl

theorem b2j_mem (m : Matcher α) (x : α) (j : Nat) (hj : j ∈ m.b2j x) :
    j < m.b.length ∧ m.b.get? j = some x := by
  unfold Matcher.b2j at hj
  split at hj
  · simp at hj
  · unfold Matcher.b2j_raw at hj
    obtain ⟨h1, h2⟩ := List.mem_filter.mp hj
    refine ⟨List.mem_range.mp h1, by simpa using h2⟩

/-- A backward-read common run ending at `(i, j)` is a forward-read common run
starting at `(i + 1 - k, j + 1 - k)`. -/
theorem run_flip (a b : List α) (i j k : Nat) (hki : k ≤ i + 1) (hkj : k ≤ j + 1)
    (h : ∀ t, t < k → ∃ x, a.get? (i - t) = some x ∧ b.get? (j - t) = some x) :
    ∀ t, t < k → ∃ x, a.get? (i + 1 - k + t) = some x ∧ b.get? (j + 1 - k + t) = some x := by
  intro t ht
  obtain ⟨x, hx1, hx2⟩ := h (k - 1 - t) (by omega)
  refine ⟨x, ?_, ?_⟩
  · have : i + 1 - k + t = i - (k - 1 - t) := by omega
    rw [this]; exact hx1
  · have : j + 1 - k + t = j - (k - 1 - t) := by omega
    rw [this]; exact hx2

theorem flm_scanj_spec (m : Matcher α) (alo ahi blo bhi : Nat) (i : Nat)
    (hialo : alo ≤ i) (hiahi : i < ahi) (j2lenOld : Nat → Nat)
    (hold : JInvPre m.a m.b alo blo ahi bhi i j2lenOld)
    (hvx : ahi ≤ m.a.length → m.a.get? i = some (m.a.getD i default)) :
    ∀ (js : List Nat), (∀ j ∈ js, j < m.b.length ∧ m.b.get? j = some (m.a.getD i default)) →
    ∀ (f : Nat → Nat) (best : Nat × Nat × Nat),
      JInvPre m.a m.b alo blo ahi bhi (i + 1) f →
      FlmInv m.a m.b alo blo ahi bhi best →
      JInvPre m.a m.b alo blo ahi bhi (i + 1) (m.flm_scanj blo bhi j2lenOld i js f best).1 ∧
      FlmInv m.a m.b alo blo ahi bhi (m.flm_scanj blo bhi j2lenOld i js f best).2 := by
  intro js
  induction js with
  | nil => intro _ f best hf hbest; exact ⟨hf, hbest⟩
  | cons j js ih =>
    intro hjs f best hf hbest
    have hjmem := hjs j (List.mem_cons_self j js)
    have hjs' := fun j' hj' => hjs j' (List.mem_cons_of_mem j hj')
    unfold Matcher.flm_scanj
    by_cases h1 : j < blo
    · simp only [h1, if_true]
      exact ih hjs' f best hf hbest
    · simp only [h1, if_false]
      by_cases h2 : bhi ≤ j
      · simp only [h2, if_true]
        exact ⟨hf, hbest⟩
      · simp only [h2, if_false]
        push_neg at h1 h2
        -- facts about the previous run length from the old dictionary invariant
        have hdfacts : ∀ d, (if j = 0 then 0 else j2lenOld (j - 1)) = d →
            d ≤ i - alo ∧ d ≤ i ∧ d ≤ j ∧ d ≤ j - blo ∧
            (ahi ≤ m.a.length → bhi ≤ m.b.length →
              ∀ t, t < d → ∃ x, m.a.get? (i - 1 - t) = some x ∧ m.b.get? (j - 1 - t) = some x) := by
          intro d hd
          by_cases hj0 : j = 0
          · rw [hj0] at hd
            simp only [if_true] at hd
            subst hd
            simp
          · rw [if_neg hj0] at hd
            subst hd
            by_cases hz : j2lenOld (j - 1) = 0
            · simp [hz]
            · obtain ⟨c1, c2, c3, c4, c5, c6, c7⟩ := hold (j - 1) hz
              exact ⟨c3, c4, by omega, by omega, c7⟩
        generalize hd : (if j = 0 then 0 else j2lenOld (j - 1)) = d
        obtain ⟨hd1, hd2, hd3, hd4, hd5⟩ := hdfacts d hd
        -- the common run of length `d + 1` ending at `(i, j)`
        have hrun : ahi ≤ m.a.length → bhi ≤ m.b.length →
            ∀ t, t < d + 1 → ∃ x, m.a.get? (i - t) = some x ∧ m.b.get? (j - t) = some x := by
          intro hva hvb t ht
          rcases Nat.eq_zero_or_pos t with ht0 | htpos
          · subst ht0
            exact ⟨m.a.getD i default, by simpa using hvx hva, by simpa using hjmem.2⟩
          · obtain ⟨x, hx1, hx2⟩ := hd5 hva hvb (t - 1) (by omega)
            refine ⟨x, ?_, ?_⟩
            · have he : i - t = i - 1 - (t - 1) := by omega
              rw [he]; exact hx1
            · have he : j - t = j - 1 - (t - 1) := by omega
              rw [he]; exact hx2
        -- the updated dictionary satisfies the invariant
        have hf' : JInvPre m.a m.b alo blo ahi bhi (i + 1)
            (fun j' => if j' = j then d + 1 else f j') := by
          intro j' hj'
          by_cases hjj : j' = j
          · subst hjj
            have hXeq : (fun j'' => if j'' = j' then d + 1 else f j'') j' = d + 1 := by simp
            rw [hXeq] at hj' ⊢
            refine ⟨h1, h2, by omega, by omega, by omega, by omega, ?_⟩
            intro hva hvb t ht
            have he : i + 1 - 1 - t = i - t := by omega
            rw [he]
            exact hrun hva hvb t ht
          · have hXeq : (fun j'' => if j'' = j then d + 1 else f j'') j' = f j' := by
              simp [hjj]
            rw [hXeq] at hj' ⊢
            exact hf j' hj'
        have hbest' : FlmInv m.a m.b alo blo ahi bhi (i + 1 - (d + 1), j + 1 - (d + 1), d + 1) := by
          unfold FlmInv
          dsimp only
          refine ⟨by omega, by omega, by omega, fun _ => ⟨by omega, by omega⟩, ?_⟩
          intro hva hvb
          exact run_flip m.a m.b i j (d + 1) (by omega) (by omega) (hrun hva hvb)
        by_cases hb : best.2.2 < d + 1
        · rw [if_pos hb]
          exact ih hjs' _ _ hf' hbest'
        · rw [if_neg hb]
          exact ih hjs' _ best hf' hbest

theorem JInvPre_empty (a b : List α) (alo blo ahi bhi s : Nat) :
    JInvPre a b alo blo ahi bhi s (fun _ => 0) :=
  fun _ hj => absurd rfl hj

theorem FlmInv_corner (a b : List α) (alo blo ahi bhi : Nat) :
    FlmInv a b alo blo ahi bhi (alo, blo, 0) := by
  unfold FlmInv
  dsimp only
  exact ⟨le_rfl, le_rfl, fun _ => ⟨rfl, rfl⟩, fun h0 => absurd rfl h0, fun _ _ t ht => by omega⟩

theorem flm_dict_spec (m : Matcher α) (alo ahi blo bhi : Nat) :
    FlmInv m.a m.b alo blo ahi bhi (m.flm_dict alo ahi blo bhi) := by
  unfold Matcher.flm_dict
  suffices h : ∀ (n s : Nat) (st : (Nat → Nat) × (Nat × Nat × Nat)),
      alo ≤ s → s + n ≤ ahi →
      JInvPre m.a m.b alo blo ahi bhi s st.1 →
      FlmInv m.a m.b alo blo ahi bhi st.2 →
      FlmInv m.a m.b alo blo ahi bhi
        (((List.range' s n).foldl
          (fun st i => m.flm_scanj blo bhi st.1 i (m.b2j (m.a.getD i default)) (fun _ => 0) st.2)
          st).2) by
    rcases le_or_lt alo ahi with hle | hlt
    · exact h (ahi - alo) alo _ le_rfl (by omega)
        (JInvPre_empty m.a m.b alo blo ahi bhi alo)
        (FlmInv_corner m.a m.b alo blo ahi bhi)
    · rw [Nat.sub_eq_zero_of_le (le_of_lt hlt)]
      simp only [List.range'_zero, List.foldl_nil]
      exact FlmInv_corner m.a m.b alo blo ahi bhi
  intro n
  induction n with
  | zero =>
    intro s st _ _ _ hbest
    simpa using hbest
  | succ n ih =>
    intro s st hs hsn hj hbest
    rw [List.range'_succ, List.foldl_cons]
    have hspec := flm_scanj_spec m alo ahi blo bhi s hs (by omega) st.1 hj
      (fun hva => get?_getD (by omega))
      (m.b2j (m.a.getD s default))
      (fun j hj => b2j_mem m _ j hj)
      (fun _ => 0) st.2
      (JInvPre_empty m.a m.b alo blo ahi bhi (s + 1))
      hbest
    have hstep : JInvPre m.a m.b alo blo ahi bhi (s + 1)
        (m.flm_scanj blo bhi st.1 s (m.b2j (m.a.getD s default)) (fun _ => 0) st.2).1 ∧
        FlmInv m.a m.b alo blo ahi bhi
        (m.flm_scanj blo bhi st.1 s (m.b2j (m.a.getD s default)) (fun _ => 0) st.2).2 := hspec
    exact ih (s + 1) _ (by omega) (by omega) hstep.1 hstep.2

/-- Stepping one cell backwards preserves the match invariant. -/
theorem FlmInv_step_back (a b : List α) (alo blo ahi bhi : Nat) (bi bj k : Nat)
    (h1 : alo < bi) (h2 : blo < bj)
    (heq : a.getD (bi - 1) default = b.getD (bj - 1) default)
    (hin : FlmInv a b alo blo ahi bhi (bi, bj, k)) :
    FlmInv a b alo blo ahi bhi (bi - 1, bj - 1, k + 1) := by
  obtain ⟨c1, c2, c3, c4, c5⟩ := hin
  dsimp only at c1 c2 c3 c4 c5
  have hk : k ≠ 0 := by
    intro h0
    obtain ⟨e1, e2⟩ := c3 h0
    omega
  obtain ⟨c4a, c4b⟩ := c4 hk
  unfold FlmInv
  dsimp only
  refine ⟨by omega, by omega, by omega, fun _ => ⟨by omega, by omega⟩, ?_⟩
  intro hva hvb t ht
  rcases Nat.eq_zero_or_pos t with ht0 | htpos
  · subst ht0
    refine ⟨b.getD (bj - 1) default, ?_, ?_⟩
    · rw [Nat.add_zero, get?_getD (by omega), heq]
    · rw [Nat.add_zero, get?_getD (by omega)]
  · obtain ⟨x, hx1, hx2⟩ := c5 hva hvb (t - 1) (by omega)
    refine ⟨x, ?_, ?_⟩
    · have he : bi - 1 + t = bi + (t - 1) := by omega
      rw [he]; exact hx1
    · have he : bj - 1 + t = bj + (t - 1) := by omega
      rw [he]; exact hx2

/-- Extending one cell forwards preserves the match invariant. -/
theorem FlmInv_step_fwd (a b : List α) (alo blo ahi bhi : Nat) (bi bj k : Nat)
    (h1 : bi + k < ahi) (h2 : bj + k < bhi)
    (heq : a.getD (bi + k) default = b.getD (bj + k) default)
    (hin : FlmInv a b alo blo ahi bhi (bi, bj, k)) :
    FlmInv a b alo blo ahi bhi (bi, bj, k + 1) := by
  obtain ⟨c1, c2, c3, c4, c5⟩ := hin
  dsimp only at c1 c2 c3 c4 c5
  unfold FlmInv
  dsimp only
  refine ⟨c1, c2, by omega, fun _ => ⟨by omega, by omega⟩, ?_⟩
  intro hva hvb t ht
  rcases Nat.lt_or_ge t k with htk | htk
  · exact c5 hva hvb t htk
  · have ht' : t = k := by omega
    subst ht'
    refine ⟨b.getD (bj + t) default, ?_, ?_⟩
    · rw [get?_getD (by omega), heq]
    · rw [get?_getD (by omega)]

theorem flm_ext1_spec (m : Matcher α) (alo blo ahi bhi : Nat) (bi bj k : Nat)
    (hin : FlmInv m.a m.b alo blo ahi bhi (bi, bj, k)) :
    FlmInv m.a m.b alo blo ahi bhi (m.flm_ext1 alo blo bi bj k) := by
  refine Matcher.flm_ext1.induct m alo blo
    (fun bi bj k => FlmInv m.a m.b alo blo ahi bhi (bi, bj, k) →
      FlmInv m.a m.b alo blo ahi bhi (m.flm_ext1 alo blo bi bj k))
    ?_ ?_ bi bj k hin
  · intro bi bj k h ih hin
    rw [Matcher.flm_ext1, dif_pos h]
    exact ih (FlmInv_step_back m.a m.b alo blo ahi bhi bi bj k h.1 h.2.1 h.2.2.2 hin)
  · intro bi bj k h hin
    rw [Matcher.flm_ext1, dif_neg h]
    exact hin

theorem flm_ext2_spec (m : Matcher α) (ahi bhi alo blo : Nat) (bi bj k : Nat)
    (hin : FlmInv m.a m.b alo blo ahi bhi (bi, bj, k)) :
    FlmInv m.a m.b alo blo ahi bhi (m.flm_ext2 ahi bhi bi bj k) := by
  refine Matcher.flm_ext2.induct m ahi bhi bi bj
    (fun k => FlmInv m.a m.b alo blo ahi bhi (bi, bj, k) →
      FlmInv m.a m.b alo blo ahi bhi (m.flm_ext2 ahi bhi bi bj k))
    ?_ ?_ k hin
  · intro k h ih hin
    rw [Matcher.flm_ext2, dif_pos h]
    exact ih (FlmInv_step_fwd m.a m.b alo blo ahi bhi bi bj k h.1 h.2.1 h.2.2.2 hin)
  · intro k h hin
    rw [Matcher.flm_ext2, dif_neg h]
    exact hin

theorem flm_ext3_spec (m : Matcher α) (alo blo ahi bhi : Nat) (bi bj k : Nat)
    (hin : FlmInv m.a m.b alo blo ahi bhi (bi, bj, k)) :
    FlmInv m.a m.b alo blo ahi bhi (m.flm_ext3 alo blo bi bj k) := by
  refine Matcher.flm_ext3.induct m alo blo
    (fun bi bj k => FlmInv m.a m.b alo blo ahi bhi (bi, bj, k) →
      FlmInv m.a m.b alo blo ahi bhi (m.flm_ext3 alo blo bi bj k))
    ?_ ?_ bi bj k hin
  · intro bi bj k h ih hin
    rw [Matcher.flm_ext3, dif_pos h]
    exact ih (FlmInv_step_back m.a m.b alo blo ahi bhi bi bj k h.1 h.2.1 h.2.2.2 hin)
  · intro bi bj k h hin
    rw [Matcher.flm_ext3, dif_neg h]
    exact hin

theorem flm_ext4_spec (m : Matcher α) (ahi bhi alo blo : Nat) (bi bj k : Nat)
    (hin : FlmInv m.a m.b alo blo ahi bhi (bi, bj, k)) :
    FlmInv m.a m.b alo blo ahi bhi (m.flm_ext4 ahi bhi bi bj k) := by
  refine Matcher.flm_ext4.induct m ahi bhi bi bj
    (fun k => FlmInv m.a m.b alo blo ahi bhi (bi, bj, k) →
      FlmInv m.a m.b alo blo ahi bhi (m.flm_ext4 ahi bhi bi bj k))
    ?_ ?_ k hin
  · intro k h ih hin
    rw [Matcher.flm_ext4, dif_pos h]
    exact ih (FlmInv_step_fwd m.a m.b alo blo ahi bhi bi bj k h.1 h.2.1 h.2.2.2 hin)
  · intro k h hin
    rw [Matcher.flm_ext4, dif_neg h]
    exact hin

/-- The result of `find_longest_match` satisfies the match invariant:
it lies in the queried rectangle and is a genuine common run. -/
theorem find_longest_match_spec (m : Matcher α) (alo ahi blo bhi : Nat) :
    FlmInv m.a m.b alo blo ahi bhi (m.find_longest_match alo ahi blo bhi) := by
  unfold Matcher.find_longest_match
  have h0 := flm_dict_spec m alo ahi blo bhi
  have h1 := flm_ext1_spec m alo blo ahi bhi _ _ _ h0
  have h2 := flm_ext2_spec m ahi bhi alo blo _ _ _ h1
  have h3 := flm_ext3_spec m alo blo ahi bhi _ _ _ h2
  exact flm_ext4_spec m ahi bhi alo blo _ _ _ h3

/-! ### `get_matching_blocks`, `get_opcodes` and the ratios -/

/-- The `while queue` loop of `get_matching_blocks`.  Python's `queue.pop()`
removes the last element of the list, so the queue is a stack; we keep the
top of the stack at the head of the list, which puts the second appended
sub-rectangle above the first, exactly as `append` then `pop` does. -/
def Matcher.gmb_loop (m : Matcher α) :
    List (Nat × Nat × Nat × Nat) → List (Nat × Nat × Nat) → List (Nat × Nat × Nat)
  | [], acc => acc
  | (alo, ahi, blo, bhi) :: rest, acc =>
    let r := m.find_longest_match alo ahi blo bhi
    if hk : r.2.2 ≠ 0 then
      m.gmb_loop
        ((if r.1 + r.2.2 < ahi ∧ r.2.1 + r.2.2 < bhi then
            [(r.1 + r.2.2, ahi, r.2.1 + r.2.2, bhi)] else []) ++
         (if alo < r.1 ∧ blo < r.2.1 then [(alo, r.1, blo, r.2.1)] else []) ++
         rest)
        (r :: acc)
    else m.gmb_loop rest acc
termination_by queue _ => (queue.map (fun q => q.2.1 - q.1 + (q.2.2.2 - q.2.2.1))).sum + queue.length
decreasing_by
  · have hs := find_longest_match_spec m alo ahi blo bhi
    obtain ⟨c1, c2, c3, c4, c5⟩ := hs
    have hb := c4 hk
    have hk2 : (m.find_longest_match alo ahi blo bhi).2.2 ≠ 0 := hk
    clear hk
    split_ifs <;>
      simp only [List.map_append, List.sum_append, List.length_append, List.map_cons,
        List.sum_cons, List.length_cons, List.map_nil, List.sum_nil, List.length_nil] <;>
      omega
  · simp only [List.map_cons, List.sum_cons, List.length_cons]
    omega

/-- Python's ascending sort of the `(a, b, size)` triples (tuple order). -/
def block_le (x y : Nat × Nat × Nat) : Bool :=
  decide (x.1 < y.1) ||
    (decide (x.1 = y.1) &&
      (decide (x.2.1 < y.2.1) || (decide (x.2.1 = y.2.1) && decide (x.2.2 ≤ y.2.2))))

/-- The second loop of `get_matching_blocks`: collapse adjacent blocks
(`i1 + k1 == i2 and j1 + k1 == j2`), dropping empty ones.  The running block
`(i1, j1, k1)` starts as `(0, 0, 0)`. -/
def merge_adjacent : Nat × Nat × Nat → List (Nat × Nat × Nat) → List (Nat × Nat × Nat)
  | (i1, j1, k1), [] => if k1 ≠ 0 then [(i1, j1, k1)] else []
  | (i1, j1, k1), (i2, j2, k2) :: rest =>
    if i1 + k1 = i2 ∧ j1 + k1 = j2 then merge_adjacent (i1, j1, k1 + k2) rest
    else (if k1 ≠ 0 then [(i1, j1, k1)] else []) ++ merge_adjacent (i2, j2, k2) rest

/-- `SequenceMatcher.get_matching_blocks`. -/
def Matcher.get_matching_blocks (m : Matcher α) : List (Nat × Nat × Nat) :=
  merge_adjacent (0, 0, 0)
      ((m.gmb_loop [(0, m.a.length, 0, m.b.length)] []).mergeSort block_le)
    ++ [(m.a.length, m.b.length, 0)]

inductive OpTag where
  | replace
  | delete
  | insert
  | equal
deriving DecidableEq

/-- One opcode `(tag, a1, a2, b1, b2)` of `SequenceMatcher.get_opcodes`. -/
structure Opcode where
  tag : OpTag
  a1 : Nat
  a2 : Nat
  b1 : Nat
  b2 : Nat
deriving DecidableEq

/-- The loop of `get_opcodes`: classify the gap before each matching block,
then emit `equal` for the block itself. -/
def opcodes_go : Nat → Nat → List (Nat × Nat × Nat) → List Opcode
  | _, _, [] => []
  | i, j, (ai, bj, size) :: rest =>
    (if i < ai ∧ j < bj then [⟨OpTag.replace, i, ai, j, bj⟩]
     else if i < ai then [⟨OpTag.delete, i, ai, j, bj⟩]
     else if j < bj then [⟨OpTag.insert, i, ai, j, bj⟩]
     else []) ++
    (if size ≠ 0 then [⟨OpTag.equal, ai, ai + size, bj, bj + size⟩] else []) ++
    opcodes_go (ai + size) (bj + size) rest

/-- `SequenceMatcher.get_opcodes`. -/
def Matcher.get_opcodes (m : Matcher α) : List Opcode :=
  opcodes_go 0 0 m.get_matching_blocks

/-- `difflib._calculate_ratio`, with the IEEE-double quotient modelled as an
exact rational. -/
def calculate_ratioQ (mcount slen : Nat) : ℚ :=
  if slen ≠ 0 then 2 * (mcount : ℚ) / (slen : ℚ) else 1

/-- `SequenceMatcher.ratio()`: twice the total matched size over the total
length. -/
def Matcher.ratioQ (m : Matcher α) : ℚ :=
  calculate_ratioQ (m.get_matching_blocks.foldl (fun acc bl => acc + bl.2.2) 0)
    (m.a.length + m.b.length)

/-- `SequenceMatcher.quick_ratio()`: multiset intersection via the `avail`
dictionary (whose counts can go negative, hence `Int`). -/
def Matcher.quick_ratioQ (m : Matcher α) : ℚ :=
  calculate_ratioQ
    (m.a.foldl (fun (st : (α → Option Int) × Nat) elt =>
      let numb : Int := match st.1 elt with
        | some n => n
        | none => (m.b.count elt : Int)
      (fun y => if y = elt then some (numb - 1) else st.1 y,
       if 0 < numb then st.2 + 1 else st.2)) ((fun _ => none), 0)).2
    (m.a.length + m.b.length)

/-- `SequenceMatcher.real_quick_ratio()`. -/
def Matcher.real_quick_ratioQ (m : Matcher α) : ℚ :=
  calculate_ratioQ (min m.a.length m.b.length) (m.a.length + m.b.length)

/-! ## difflib.Differ and ndiff -/

/-- `difflib.IS_CHARACTER_JUNK`: blanks and tabs. -/
def IS_CHARACTER_JUNK (ch : Char) : Bool := ch = ' ' || ch = '\t'

/-- The character-level `SequenceMatcher(self.charjunk)` used inside
`_fancy_replace`, with `charjunk = IS_CHARACTER_JUNK` as in `ndiff`. -/
def char_matcher (s1 s2 : String) : Matcher Char :=
  ⟨some IS_CHARACTER_JUNK, true, s1.data, s2.data⟩

/-- The line-level `SequenceMatcher(self.linejunk, a, b)` of `Differ.compare`,
with `linejunk = None` as in `ndiff`. -/
def line_matcher (a b : List String) : Matcher String := ⟨none, true, a, b⟩

/-- `Differ._dump(tag, x, lo, hi)`: yield `"<tag> <line>"` for each line of
the slice. -/
def dump_tagged (tag : Char) (xs : List String) (lo hi : Nat) : List String :=
  ((xs.drop lo).take (hi - lo)).map (fun x => String.mk [tag, ' '] ++ x)

/-- `Differ._plain_replace`: dump the shorter side second. -/
def plain_replace (a b : List String) (alo ahi blo bhi : Nat) : List String :=
  if bhi - blo < ahi - alo then
    dump_tagged '+' b blo bhi ++ dump_tagged '-' a alo ahi
  else
    dump_tagged '-' a alo ahi ++ dump_tagged '+' b blo bhi

/-- `difflib._keep_original_ws`: keep original whitespace where the guide tag
is a blank over a whitespace character. -/
def keep_original_ws (s tags : String) : String :=
  String.mk ((s.data.zip tags.data).map (fun p => if p.2 = ' ' && py_is_space p.1 then p.1 else p.2))

/-- `Differ._qformat`: the deleted and inserted line, each followed by its
intraline guide line when the cleaned-up tag string is nonempty. -/
def qformat (aline bline atags btags : String) : List String :=
  ["- " ++ aline] ++
  (if py_rstrip (keep_original_ws aline atags) ≠ "" then
    ["? " ++ py_rstrip (keep_original_ws aline atags) ++ "\n"] else []) ++
  ["+ " ++ bline] ++
  (if py_rstrip (keep_original_ws bline btags) ≠ "" then
    ["? " ++ py_rstrip (keep_original_ws bline btags) ++ "\n"] else [])

/-- The `atags`/`btags` accumulation of `_fancy_replace` over the char-level
opcodes of the chosen pair. -/
def make_tags (aelt belt : String) : String × String :=
  (char_matcher aelt belt).get_opcodes.foldl (fun (st : String × String) op =>
    match op.tag with
    | OpTag.replace => (st.1 ++ String.mk (List.replicate (op.a2 - op.a1) '^'),
        st.2 ++ String.mk (List.replicate (op.b2 - op.b1) '^'))
    | OpTag.delete => (st.1 ++ String.mk (List.replicate (op.a2 - op.a1) '-'), st.2)
    | OpTag.insert => (st.1, st.2 ++ String.mk (List.replicate (op.b2 - op.b1) '+'))
    | OpTag.equal => (st.1 ++ String.mk (List.replicate (op.a2 - op.a1) ' '),
        st.2 ++ String.mk (List.replicate (op.b2 - op.b1) ' '))) ("", "")

/-- The selection state of `_fancy_replace`: the running best ratio (initially
0.74), the best non-identical pair found so far, and the first identical pair
(`eqi`/`eqj`). -/
structure FancyState where
  bratioQ : ℚ
  best : Option (Nat × Nat)
  eqp : Option (Nat × Nat)

/-- The double scan of `_fancy_replace` (outer loop over `j`, inner over `i`):
an identical pair is remembered once in `eqp`; for non-identical pairs the
three increasingly expensive ratio tests pick a new best. -/
def fancy_best (a b : List String) (alo ahi blo bhi : Nat) : FancyState :=
  (List.range' blo (bhi - blo)).foldl (fun st j =>
    (List.range' alo (ahi - alo)).foldl (fun st i =>
      if a.getD i "" = b.getD j "" then
        if st.eqp = none then { st with eqp := some (i, j) } else st
      else
        if (char_matcher (a.getD i "") (b.getD j "")).real_quick_ratioQ > st.bratioQ ∧
           (char_matcher (a.getD i "") (b.getD j "")).quick_ratioQ > st.bratioQ ∧
           (char_matcher (a.getD i "") (b.getD j "")).ratioQ > st.bratioQ then
          { bratioQ := (char_matcher (a.getD i "") (b.getD j "")).ratioQ,
            best := some (i, j), eqp := st.eqp }
        else st) st)
    ⟨74 / 100, none, none⟩

theorem foldl_inv {β σ : Type} (P : σ → Prop) (f : σ → β → σ) (l : List β) (Q : β → Prop)
    (hl : ∀ x ∈ l, Q x) (hP : ∀ s x, P s → Q x → P (f s x)) (s : σ) (hs : P s) :
    P (l.foldl f s) := by
  induction l generalizing s with
  | nil => exact hs
  | cons x xs ih =>
    exact ih (fun y hy => hl y (List.mem_cons_of_mem x hy)) (f s x)
      (hP s x hs (hl x (List.mem_cons_self x xs)))

/-- Any pair recorded by the `_fancy_replace` scan lies in the scanned
rectangle, and a pair recorded in `eqp` is an identical pair.  (Needed for the
termination of `_fancy_replace` below.) -/
theorem fancy_best_mem (a b : List String) (alo ahi blo bhi : Nat) :
    (∀ i j, (fancy_best a b alo ahi blo bhi).best = some (i, j) →
      alo ≤ i ∧ i < ahi ∧ blo ≤ j ∧ j < bhi) ∧
    (∀ i j, (fancy_best a b alo ahi blo bhi).eqp = some (i, j) →
      (alo ≤ i ∧ i < ahi ∧ blo ≤ j ∧ j < bhi) ∧ a.getD i "" = b.getD j "") ∧
    ((fancy_best a b alo ahi blo bhi).best = none →
      (fancy_best a b alo ahi blo bhi).bratioQ = 74 / 100) := by
  unfold fancy_best
  refine foldl_inv (fun (st : FancyState) =>
      (∀ i j, st.best = some (i, j) → alo ≤ i ∧ i < ahi ∧ blo ≤ j ∧ j < bhi) ∧
      (∀ i j, st.eqp = some (i, j) →
        (alo ≤ i ∧ i < ahi ∧ blo ≤ j ∧ j < bhi) ∧ a.getD i "" = b.getD j "") ∧
      (st.best = none → st.bratioQ = 74 / 100))
    _ _ (fun j => blo ≤ j ∧ j < bhi) ?_ ?_ _ ?_
  · intro j hj
    have := List.mem_range'_1.mp hj
    omega
  · intro st j hst hj
    refine foldl_inv (fun (st : FancyState) =>
        (∀ i j, st.best = some (i, j) → alo ≤ i ∧ i < ahi ∧ blo ≤ j ∧ j < bhi) ∧
        (∀ i j, st.eqp = some (i, j) →
          (alo ≤ i ∧ i < ahi ∧ blo ≤ j ∧ j < bhi) ∧ a.getD i "" = b.getD j "") ∧
        (st.best = none → st.bratioQ = 74 / 100))
      _ _ (fun i => alo ≤ i ∧ i < ahi) ?_ ?_ _ hst
    · intro i hi
      have := List.mem_range'_1.mp hi
      omega
    · intro s i hs hi
      by_cases heq : a.getD i "" = b.getD j ""
      · rw [if_pos heq]
        by_cases hnone : s.eqp = none
        · rw [if_pos hnone]
          refine ⟨hs.1, ?_, hs.2.2⟩
          intro i' j' h'
          simp only at h'
          obtain ⟨h1, h2⟩ := Prod.mk.injEq .. ▸ (Option.some.injEq .. ▸ h')
          subst h1
          subst h2
          exact ⟨⟨hi.1, hi.2, hj.1, hj.2⟩, heq⟩
        · rw [if_neg hnone]
          exact hs
      · rw [if_neg heq]
        by_cases hr : (char_matcher (a.getD i "") (b.getD j "")).real_quick_ratioQ > s.bratioQ ∧
            (char_matcher (a.getD i "") (b.getD j "")).quick_ratioQ > s.bratioQ ∧
            (char_matcher (a.getD i "") (b.getD j "")).ratioQ > s.bratioQ
        · rw [if_pos hr]
          refine ⟨?_, hs.2.1, ?_⟩
          · intro i' j' h'
            simp only at h'
            obtain ⟨h1, h2⟩ := Prod.mk.injEq .. ▸ (Option.some.injEq .. ▸ h')
            subst h1
            subst h2
            exact ⟨hi.1, hi.2, hj.1, hj.2⟩
          · intro hcontra
            simp at hcontra
        · rw [if_neg hr]
          exact hs
  · exact ⟨fun i j h => by simp at h, fun i j h => by simp at h, fun _ => rfl⟩

mutual

/-- `Differ._fancy_replace`: below the cutoff fall back to `_plain_replace`
unless an identical pair was seen (then it is synchronized on, emitted as an
equal line); at or above the cutoff synchronize on the best pair and emit the
intraline-annotated pair via `_qformat`.  In Python a reached cutoff implies
`best` was assigned, so the `none` arm there is unreachable. -/
def fancy_replace (a b : List String) (alo ahi blo bhi : Nat) : List String :=
  if (fancy_best a b alo ahi blo bhi).bratioQ < 75 / 100 then
    match h : (fancy_best a b alo ahi blo bhi).eqp with
    | none => plain_replace a b alo ahi blo bhi
    | some (ei, ej) =>
      fancy_helper a b alo ei blo ej ++
      (("  " ++ a.getD ei "") :: fancy_helper a b (ei + 1) ahi (ej + 1) bhi)
  else
    match h : (fancy_best a b alo ahi blo bhi).best with
    | none => []
    | some (bi, bj) =>
      fancy_helper a b alo bi blo bj ++
      qformat (a.getD bi "") (b.getD bj "") (make_tags (a.getD bi "") (b.getD bj "")).1
        (make_tags (a.getD bi "") (b.getD bj "")).2 ++
      fancy_helper a b (bi + 1) ahi (bj + 1) bhi
termination_by ((ahi - alo) + (bhi - blo), 0)
decreasing_by
  · have hm := (fancy_best_mem a b alo ahi blo bhi).2.1 ei ej h
    apply Prod.Lex.left
    omega
  · have hm := (fancy_best_mem a b alo ahi blo bhi).2.1 ei ej h
    apply Prod.Lex.left
    omega
  · have hm := (fancy_best_mem a b alo ahi blo bhi).1 bi bj h
    apply Prod.Lex.left
    omega
  · have hm := (fancy_best_mem a b alo ahi blo bhi).1 bi bj h
    apply Prod.Lex.left
    omega

/-- `Differ._fancy_helper`: dispatch on which of the two ranges is nonempty. -/
def fancy_helper (a b : List String) (alo ahi blo bhi : Nat) : List String :=
  if alo < ahi then
    if blo < bhi then fancy_replace a b alo ahi blo bhi
    else dump_tagged '-' a alo ahi
  else if blo < bhi then dump_tagged '+' b blo bhi
  else []
termination_by ((ahi - alo) + (bhi - blo), 1)
decreasing_by
  apply Prod.Lex.right
  omega

end

/-- The loop body of `Differ.compare`: which generator serves one opcode. -/
def dispatch_op (a b : List String) (op : Opcode) : List String :=
  match op.tag with
  | OpTag.replace => fancy_replace a b op.a1 op.a2 op.b1 op.b2
  | OpTag.delete => dump_tagged '-' a op.a1 op.a2
  | OpTag.insert => dump_tagged '+' b op.b1 op.b2
  | OpTag.equal => dump_tagged ' ' a op.a1 op.a2

/-- `Differ.compare(a, b)`: dispatch each opcode of the line-level matcher. -/
def compare_lines (a b : List String) : List String :=
  (line_matcher a b).get_opcodes.foldl (fun acc op => acc ++ dispatch_op a b op) []

/-- `difflib.ndiff(a, b)` with its default junk parameters
(`linejunk=None`, `charjunk=IS_CHARACTER_JUNK`). -/
def ndiff (a b : List String) : List String := compare_lines a b

/-! ## diff.py: compute_diff -/

/-- A `compute_diff` argument: either a raw string (split into lines by the
function) or an already-split list of text units (the sentence list the
extraction step can return). -/
inductive PyText where
  | str (s : String)
  | list (l : List String)

/-- `compute_diff(text1, text2)` (diff.py lines 49-54): `ndiff` on the lists
when both arguments are lists, otherwise `ndiff` on
`splitlines(keepends=True)` of both.  When exactly one argument is a list,
the `else` branch calls `.splitlines` on it, which raises `AttributeError`
(lists have no such method) — modelled as the error case. -/
def compute_diff : PyText → PyText → Except String (List String)
  | PyText.list t1, PyText.list t2 => Except.ok (ndiff t1 t2)
  | PyText.str t1, PyText.str t2 =>
    Except.ok (ndiff (py_splitlines_keepends t1) (py_splitlines_keepends t2))
  | PyText.list _, PyText.str _ =>
    Except.error "AttributeError: list object has no attribute splitlines"
  | PyText.str _, PyText.list _ =>
    Except.error "AttributeError: list object has no attribute splitlines"

/-! ## diff.py: pretty_diff -/

/-- The four keyword options of `pretty_diff`, with the source's defaults
`escape_html=True, strip_whitespace=False, format_for_ai=False,
show_only_changes=False`. -/
structure RenderOpts where
  escape_html : Bool := true
  strip_whitespace : Bool := false
  format_for_ai : Bool := false
  show_only_changes : Bool := false
deriving DecidableEq

/-- Lines 82-86 of diff.py: `content = line[2:].strip() if strip_whitespace
else line[2:]`, then `content = html.escape(content)` if `escape_html`. -/
def process_content (o : RenderOpts) (raw : String) : String :=
  let c := if o.strip_whitespace then py_strip raw else raw
  if o.escape_html then html_escape c else c

/-- Line 94 of diff.py: `any(change_line[0] in ['+', '-'] for change_line in
diff if change_line[2:].strip() == content)` — does any line of the whole
diff whose stripped tail equals this content carry a `+` or `-` indicator? -/
def has_changed_twin (diff : List String) (content : String) : Bool :=
  diff.any (fun cl => py_strip (py_drop 2 cl) = content ∧
    (py_at0 cl = some '+' ∨ py_at0 cl = some '-'))

/-- The body of the `for line in diff` loop of `pretty_diff` (lines 81-121)
for one nonempty `line`: returns the updated line counters and the formatted
lines appended (`[]` when the line is skipped).  A line whose indicator is
none of `' '`, `'+'`, `'-'` falls through the `elif` chain: nothing is
appended and no counter moves. -/
def pretty_step (diff : List String) (o : RenderOpts) (n1 n2 : Nat) (line : String) :
    Nat × Nat × List String :=
  let content := process_content o (py_drop 2 line)
  if py_at0 line = some ' ' then
    if o.show_only_changes then
      if o.format_for_ai then (n1, n2, [])
      else if has_changed_twin diff content then
        (n1, n2, [if content ≠ "" then "<span>" ++ content ++ "</span>" else "[Blank Line]"])
      else (n1, n2, [])
    else
      (n1 + 1, n2 + 1,
       [if content ≠ "" then toString (n1 + 1) ++ ": " ++ " " ++ content
        else toString (n1 + 1) ++ ": " ++ " " ++ "[Blank Line]"])
  else if py_at0 line = some '+' then
    (n1, n2 + 1,
     [if o.format_for_ai then
        (if content ≠ "" then "+" ++ toString (n2 + 1) ++ ": " ++ " " ++ content
         else "+" ++ toString (n2 + 1) ++ ": " ++ " " ++ "[Blank Line]")
      else
        (if content ≠ "" then
          "<span style='background-color: #ddffdd;'>" ++
            "+" ++ toString (n2 + 1) ++ ": " ++ " " ++ content ++ "</span>"
         else
          "<span style='background-color: #ddffdd;'>" ++
            "+" ++ toString (n2 + 1) ++ ": " ++ " " ++ "[Blank Line]" ++ "</span>")])
  else if py_at0 line = some '-' then
    (n1 + 1, n2,
     [if o.format_for_ai then
        (if content ≠ "" then "-" ++ toString (n1 + 1) ++ ": " ++ " " ++ content
         else "-" ++ toString (n1 + 1) ++ ": " ++ " " ++ "[Blank Line]")
      else
        (if content ≠ "" then
          "<span style='background-color: #ffdddd;'>" ++
            "-" ++ toString (n1 + 1) ++ ": " ++ " " ++ content ++ "</span>"
         else
          "<span style='background-color: #ffdddd;'>" ++
            "-" ++ toString (n1 + 1) ++ ": " ++ " " ++ "[Blank Line]" ++ "</span>")])
  else (n1, n2, [])

/-- The `for line in diff` loop: `none` models the `IndexError` Python raises
at `line[0]` when the diff contains an empty string. -/
def pretty_lines (diff : List String) (o : RenderOpts) :
    List String → Nat → Nat → Option (List String)
  | [], _, _ => some []
  | line :: rest, n1, n2 =>
    if line = "" then none
    else
      (pretty_lines diff o rest (pretty_step diff o n1 n2 line).1
        (pretty_step diff o n1 n2 line).2.1).map
        (fun ls => (pretty_step diff o n1 n2 line).2.2 ++ ls)

/-- `pretty_diff(diff, ...)` (lines 77-123): run the loop with both counters
at 0 and join with a newline for the machine view, `"<br>"` for the human one. -/
def pretty_diff (diff : List String) (o : RenderOpts) : Option String :=
  (pretty_lines diff o diff 0 0).map
    (fun ls => String.intercalate (if o.format_for_ai then "\n" else "<br>") ls)

/-! ## Statement vocabulary

Definitions used only to state the claims: projections of a diff script back
onto its two sides, the shape of a diff line, and slices of a sequence. -/

/-- The diff lines whose indicator ties them to the "before" side:
`Equal` (a blank) and `Delete` (a minus). -/
def keeps_before (l : String) : Bool :=
  match py_at0 l with
  | some c => c = ' ' || c = '-'
  | none => false

/-- The diff lines whose indicator ties them to the "after" side:
`Equal` (a blank) and `Insert` (a plus). -/
def keeps_after (l : String) : Bool :=
  match py_at0 l with
  | some c => c = ' ' || c = '+'
  | none => false

/-- The contents (tags stripped) of the `Equal` and `Delete` lines of a diff,
in script order. -/
def restrict_before (d : List String) : List String :=
  (d.filter keeps_before).map (py_drop 2)

/-- The contents (tags stripped) of the `Equal` and `Insert` lines of a diff,
in script order. -/
def restrict_after (d : List String) : List String :=
  (d.filter keeps_after).map (py_drop 2)

/-- A well-formed ndiff output line: a two-character tag (blank-blank,
plus-blank, minus-blank or question-blank) followed by the payload. -/
def tag_shape (l : String) : Prop :=
  ∃ x, l = "  " ++ x ∨ l = "+ " ++ x ∨ l = "- " ++ x ∨ l = "? " ++ x

/-- Python `xs[lo:hi]`. -/
def slice {β : Type} (xs : List β) (lo hi : Nat) : List β :=
  (xs.drop lo).take (hi - lo)

/-- A matching block really is a run of common elements. -/
def BlockRunEq (a b : List α) (t : Nat × Nat × Nat) : Prop :=
  ∀ u, u < t.2.2 → ∃ x, a.get? (t.1 + u) = some x ∧ b.get? (t.2.1 + u) = some x

/-- A sane nonempty matching block of `m`: nonzero, in bounds, a common run. -/
def MOk (m : Matcher α) (t : Nat × Nat × Nat) : Prop :=
  t.2.2 ≠ 0 ∧ t.1 + t.2.2 ≤ m.a.length ∧ t.2.1 + t.2.2 ≤ m.b.length ∧ BlockRunEq m.a m.b t

/-- Block `t` ends (in both coordinates) no later than block `u` starts. -/
def BlocksLe (t u : Nat × Nat × Nat) : Prop :=
  t.1 + t.2.2 ≤ u.1 ∧ t.2.1 + t.2.2 ≤ u.2.1

/-- Two blocks are ordered one way or the other. -/
def BlocksSep (t u : Nat × Nat × Nat) : Prop := BlocksLe t u ∨ BlocksLe u t

/-- A rectangle `(alo, ahi, blo, bhi)` of the `get_matching_blocks` worklist
lies inside the two sequences. -/
def RectOk (m : Matcher α) (r : Nat × Nat × Nat × Nat) : Prop :=
  r.2.1 ≤ m.a.length ∧ r.2.2.2 ≤ m.b.length

/-- A block is entirely before or entirely after a worklist rectangle. -/
def BlockRectSep (t : Nat × Nat × Nat) (r : Nat × Nat × Nat × Nat) : Prop :=
  (t.1 + t.2.2 ≤ r.1 ∧ t.2.1 + t.2.2 ≤ r.2.2.1) ∨ (r.2.1 ≤ t.1 ∧ r.2.2.2 ≤ t.2.1)

/-- Two worklist rectangles are ordered one way or the other. -/
def RectSep (r s : Nat × Nat × Nat × Nat) : Prop :=
  (r.2.1 ≤ s.1 ∧ r.2.2.2 ≤ s.2.2.1) ∨ (s.2.1 ≤ r.1 ∧ s.2.2.2 ≤ r.2.2.1)

/-- The matching blocks, read left to right from position `(i, j)`: each block
starts at or after the current position, is a common run, and the trailing
position stays inside the sequences. -/
def ChainB (a b : List α) : Nat → Nat → List (Nat × Nat × Nat) → Prop
  | i, j, [] => i ≤ a.length ∧ j ≤ b.length
  | i, j, t :: rest =>
    i ≤ t.1 ∧ j ≤ t.2.1 ∧ BlockRunEq a b t ∧ ChainB a b (t.1 + t.2.2) (t.2.1 + t.2.2) rest

/-! ## The matching blocks form an ordered chain of common runs -/

theorem mem_ite_single {γ : Type} {C : Prop} [Decidable C] {R x : γ}
    (h : x ∈ (if C then [R] else ([] : List γ))) : x = R := by
  by_cases hC : C
  · rw [if_pos hC] at h
    simpa using h
  · rw [if_neg hC] at h
    simp at h

/-- The worklist loop of `get_matching_blocks` only produces sane, pairwise
ordered blocks. -/
theorem gmb_loop_spec (m : Matcher α) :
    ∀ (queue : List (Nat × Nat × Nat × Nat)) (acc : List (Nat × Nat × Nat)),
      (∀ r ∈ queue, RectOk m r) →
      List.Pairwise RectSep queue →
      (∀ t ∈ acc, MOk m t) →
      List.Pairwise BlocksSep acc →
      (∀ t ∈ acc, ∀ r ∈ queue, BlockRectSep t r) →
      (∀ t ∈ m.gmb_loop queue acc, MOk m t) ∧ List.Pairwise BlocksSep (m.gmb_loop queue acc) := by
  intro queue acc
  refine Matcher.gmb_loop.induct m
    (fun queue acc =>
      (∀ r ∈ queue, RectOk m r) →
      List.Pairwise RectSep queue →
      (∀ t ∈ acc, MOk m t) →
      List.Pairwise BlocksSep acc →
      (∀ t ∈ acc, ∀ r ∈ queue, BlockRectSep t r) →
      (∀ t ∈ m.gmb_loop queue acc, MOk m t) ∧ List.Pairwise BlocksSep (m.gmb_loop queue acc))
    ?_ ?_ ?_ queue acc
  · -- empty worklist
    intro acc _ _ hA hPA _
    rw [Matcher.gmb_loop]
    exact ⟨hA, hPA⟩
  · -- a nonempty block was found in the popped rectangle
    intro alo ahi blo bhi rest acc r hk ih hQ hPQ hA hPA hAR
    rw [Matcher.gmb_loop, dif_pos hk]
    have hrect := hQ (alo, ahi, blo, bhi) (List.mem_cons_self _ _)
    obtain ⟨hra, hrb⟩ := hrect
    dsimp only at hra hrb
    have hs : FlmInv m.a m.b alo blo ahi bhi r := find_longest_match_spec m alo ahi blo bhi
    obtain ⟨c1, c2, c3, c4, c5⟩ := hs
    obtain ⟨c4a, c4b⟩ := c4 hk
    have hMok : MOk m r := by
      refine ⟨hk, by omega, by omega, ?_⟩
      intro u hu
      exact c5 hra hrb u hu
    have hrest_sep : ∀ x ∈ rest, RectSep (alo, ahi, blo, bhi) x :=
      fun x hx => List.rel_of_pairwise_cons hPQ hx
    have hPrest : List.Pairwise RectSep rest := hPQ.of_cons
    -- the two sub-rectangles
    refine ih ?_ ?_ ?_ ?_ ?_
    · -- RectOk for the new worklist
      intro rr hrr
      rcases List.mem_append.mp hrr with hr1 | hr2
      · rcases List.mem_append.mp hr1 with hr1a | hr1b
        · rw [mem_ite_single hr1a]
          exact ⟨hra, hrb⟩
        · rw [mem_ite_single hr1b]
          exact ⟨by (try dsimp only); omega, by (try dsimp only); omega⟩
      · exact hQ rr (List.mem_cons_of_mem _ hr2)
    · -- RectSep pairwise for the new worklist
      refine (List.pairwise_append).mpr ⟨?_, ?_, ?_⟩
      · refine (List.pairwise_append).mpr ⟨?_, ?_, ?_⟩
        · -- within the q2 singleton
          by_cases hC : r.1 + r.2.2 < ahi ∧ r.2.1 + r.2.2 < bhi
          · rw [dif_pos hC]; exact List.pairwise_singleton _ _
          · rw [dif_neg hC]; exact List.Pairwise.nil
        · by_cases hC : alo < r.1 ∧ blo < r.2.1
          · rw [dif_pos hC]; exact List.pairwise_singleton _ _
          · rw [dif_neg hC]; exact List.Pairwise.nil
        · -- q2 before-or-after q1
          intro x hx y hy
          rw [mem_ite_single hx, mem_ite_single hy]
          right
          exact ⟨by (try dsimp only); omega, by (try dsimp only); omega⟩
      · exact hPrest
      · -- each sub-rectangle vs the remaining worklist
        intro x hx y hy
        have hsep := hrest_sep y hy
        simp only [RectSep, BlockRectSep, BlocksLe, BlocksSep] at hsep
        rcases List.mem_append.mp hx with hx2 | hx1
        · rw [mem_ite_single hx2]
          rcases hsep with h | h
          · left
            obtain ⟨ha, hb⟩ := h
            exact ⟨ha, hb⟩
          · right
            obtain ⟨ha, hb⟩ := h
            exact ⟨by (try dsimp only); omega, by (try dsimp only); omega⟩
        · rw [mem_ite_single hx1]
          rcases hsep with h | h
          · left
            obtain ⟨ha, hb⟩ := h
            exact ⟨by (try dsimp only); omega, by (try dsimp only); omega⟩
          · right
            obtain ⟨ha, hb⟩ := h
            exact ⟨by (try dsimp only); omega, by (try dsimp only); omega⟩
    · -- MOk for the new matches
      intro t ht
      rcases List.mem_cons.mp ht with ht0 | ht1
      · rw [ht0]; exact hMok
      · exact hA t ht1
    · -- pairwise ordering of the new matches
      refine List.Pairwise.cons ?_ hPA
      intro t ht
      have hsep3 := hAR t ht (alo, ahi, blo, bhi) (List.mem_cons_self _ _)
      simp only [RectSep, BlockRectSep, BlocksLe, BlocksSep] at hsep3
      rcases hsep3 with h | h
      · right
        obtain ⟨ha, hb⟩ := h
        exact ⟨by (try dsimp only); omega, by (try dsimp only); omega⟩
      · left
        obtain ⟨ha, hb⟩ := h
        exact ⟨by (try dsimp only); omega, by (try dsimp only); omega⟩
    · -- blocks vs the new worklist
      intro t ht rr hrr
      rcases List.mem_cons.mp ht with ht0 | ht1
      · -- the new block vs the new worklist
        subst ht0
        rcases List.mem_append.mp hrr with hr1 | hr2
        · rcases List.mem_append.mp hr1 with hr2a | hr1b
          · rw [mem_ite_single hr2a]
            left
            exact ⟨le_rfl, le_rfl⟩
          · rw [mem_ite_single hr1b]
            right
            exact ⟨le_rfl, le_rfl⟩
        · have hsep2 := hrest_sep rr hr2
          simp only [RectSep, BlockRectSep, BlocksLe, BlocksSep] at hsep2
          rcases hsep2 with h | h
          · left
            obtain ⟨ha, hb⟩ := h
            exact ⟨by (try dsimp only); omega, by (try dsimp only); omega⟩
          · right
            obtain ⟨ha, hb⟩ := h
            exact ⟨by (try dsimp only); omega, by (try dsimp only); omega⟩
      · -- old blocks vs the new worklist
        have hsep := hAR t ht1 (alo, ahi, blo, bhi) (List.mem_cons_self _ _)
        simp only [RectSep, BlockRectSep, BlocksLe, BlocksSep] at hsep
        rcases List.mem_append.mp hrr with hr1 | hr2
        · rcases List.mem_append.mp hr1 with hr2a | hr1b
          · rw [mem_ite_single hr2a]
            rcases hsep with h | h
            · left
              obtain ⟨ha, hb⟩ := h
              exact ⟨by (try dsimp only); omega, by (try dsimp only); omega⟩
            · right
              obtain ⟨ha, hb⟩ := h
              exact ⟨by (try dsimp only); omega, by (try dsimp only); omega⟩
          · rw [mem_ite_single hr1b]
            rcases hsep with h | h
            · left
              obtain ⟨ha, hb⟩ := h
              exact ⟨by (try dsimp only); omega, by (try dsimp only); omega⟩
            · right
              obtain ⟨ha, hb⟩ := h
              exact ⟨by (try dsimp only); omega, by (try dsimp only); omega⟩
        · exact hAR t ht1 rr (List.mem_cons_of_mem _ hr2)
  · -- the popped rectangle held no block
    intro alo ahi blo bhi rest acc r hk ih hQ hPQ hA hPA hAR
    rw [Matcher.gmb_loop, dif_neg hk]
    exact ih (fun r hr => hQ r (List.mem_cons_of_mem _ hr)) hPQ.of_cons hA hPA
      (fun t ht r hr => hAR t ht r (List.mem_cons_of_mem _ hr))

theorem block_le_trans (t u v : Nat × Nat × Nat)
    (h1 : block_le t u = true) (h2 : block_le u v = true) : block_le t v = true := by
  unfold block_le at h1 h2 ⊢
  simp only [Bool.or_eq_true, Bool.and_eq_true, decide_eq_true_eq] at h1 h2 ⊢
  omega

theorem block_le_total (t u : Nat × Nat × Nat) : (block_le t u || block_le u t) = true := by
  unfold block_le
  simp only [Bool.or_eq_true, Bool.and_eq_true, decide_eq_true_eq]
  omega

theorem block_le_fst (t u : Nat × Nat × Nat) (h : block_le t u = true) : t.1 ≤ u.1 := by
  unfold block_le at h
  simp only [Bool.or_eq_true, Bool.and_eq_true, decide_eq_true_eq] at h
  omega

/-- The current position of a chain stays inside the sequences. -/
theorem chainB_le (a b : List α) :
    ∀ (l : List (Nat × Nat × Nat)) (i j : Nat), ChainB a b i j l →
      i ≤ a.length ∧ j ≤ b.length := by
  intro l
  induction l with
  | nil => intro i j h; exact h
  | cons t rest ih =>
    intro i j h
    obtain ⟨h1, h2, _, h4⟩ := h
    have := ih (t.1 + t.2.2) (t.2.1 + t.2.2) h4
    omega

/-- A lexicographically sorted list of sane, pairwise ordered blocks is a
chain from any position at or before its head. -/
theorem chain_of_sorted (m : Matcher α) :
    ∀ (l : List (Nat × Nat × Nat)), (∀ t ∈ l, MOk m t) →
      List.Pairwise BlocksSep l →
      List.Pairwise (fun t u => block_le t u = true) l →
      ∀ i j, i ≤ m.a.length → j ≤ m.b.length →
      (∀ t0, l.head? = some t0 → i ≤ t0.1 ∧ j ≤ t0.2.1) →
      ChainB m.a m.b i j l := by
  intro l
  induction l with
  | nil =>
    intro _ _ _ i j hi hj _
    exact ⟨hi, hj⟩
  | cons t rest ih =>
    intro hm hsep hsort i j hi hj hhead
    obtain ⟨hti, htj⟩ := hhead t rfl
    have hmok := hm t (List.mem_cons_self _ _)
    refine ⟨hti, htj, hmok.2.2.2, ?_⟩
    refine ih (fun u hu => hm u (List.mem_cons_of_mem _ hu)) hsep.of_cons hsort.of_cons
      (t.1 + t.2.2) (t.2.1 + t.2.2) hmok.2.1 hmok.2.2.1 ?_
    intro u hu
    have humem : u ∈ rest := by
      cases rest with
      | nil => simp at hu
      | cons v vs =>
        simp only [List.head?_cons, Option.some.injEq] at hu
        rw [hu]
        exact List.mem_cons_self _ _
    have hsepu := List.rel_of_pairwise_cons hsep humem
    have hsortu := List.rel_of_pairwise_cons hsort humem
    have humok := hm u (List.mem_cons_of_mem _ humem)
    rcases hsepu with h | h
    · exact ⟨h.1, h.2⟩
    · -- impossible: `u` would end before `t` starts yet sort after it
      have hfst := block_le_fst t u hsortu
      obtain ⟨ha, hb⟩ := h
      have hku := humok.1
      omega

/-- Collapsing adjacent blocks preserves the chain. -/
theorem merge_adjacent_chain (a b : List α) :
    ∀ (l : List (Nat × Nat × Nat)) (i1 j1 k1 i j : Nat),
      i ≤ i1 → j ≤ j1 → BlockRunEq a b (i1, j1, k1) →
      i1 + k1 ≤ a.length → j1 + k1 ≤ b.length →
      ChainB a b (i1 + k1) (j1 + k1) l →
      ChainB a b i j (merge_adjacent (i1, j1, k1) l) := by
  intro l
  induction l with
  | nil =>
    intro i1 j1 k1 i j hi hj hrun hba hbb _
    rw [merge_adjacent]
    by_cases hk : k1 ≠ 0
    · rw [if_pos hk]
      exact ⟨hi, hj, hrun, hba, hbb⟩
    · rw [if_neg hk]
      push_neg at hk
      exact ⟨by omega, by omega⟩
  | cons nxt rest ih =>
    intro i1 j1 k1 i j hi hj hrun hba hbb hchain
    obtain ⟨i2, j2, k2⟩ := nxt
    obtain ⟨hc1, hc2, hc3, hc4⟩ := hchain
    dsimp only at hc1 hc2 hc3 hc4
    have hle := chainB_le a b rest (i2 + k2) (j2 + k2) hc4
    rw [merge_adjacent]
    by_cases hadj : i1 + k1 = i2 ∧ j1 + k1 = j2
    · rw [if_pos hadj]
      obtain ⟨hadj1, hadj2⟩ := hadj
      refine ih i1 j1 (k1 + k2) i j hi hj ?_ (by omega) (by omega) ?_
      · -- the two runs concatenate
        intro u hu
        dsimp only at hu ⊢
        rcases Nat.lt_or_ge u k1 with hu1 | hu1
        · exact hrun u hu1
        · obtain ⟨x, hx1, hx2⟩ := hc3 (u - k1) (by dsimp only; omega)
          refine ⟨x, ?_, ?_⟩
          · have he : i1 + u = i2 + (u - k1) := by omega
            rw [he]; exact hx1
          · have he : j1 + u = j2 + (u - k1) := by omega
            rw [he]; exact hx2
      · have he1 : i1 + (k1 + k2) = i2 + k2 := by omega
        have he2 : j1 + (k1 + k2) = j2 + k2 := by omega
        rw [he1, he2]
        exact hc4
    · rw [if_neg hadj]
      have hrest : ChainB a b (i1 + k1) (j1 + k1) (merge_adjacent (i2, j2, k2) rest) :=
        ih i2 j2 k2 (i1 + k1) (j1 + k1) hc1 hc2 hc3 (by omega) (by omega) hc4
      by_cases hk : k1 ≠ 0
      · rw [if_pos hk]
        exact ⟨hi, hj, hrun, hrest⟩
      · rw [if_neg hk]
        push_neg at hk
        rw [List.nil_append]
        -- with an empty current block the position passes straight through
        refine ih i2 j2 k2 i j (by omega) (by omega) hc3 (by omega) (by omega) hc4

/-- Appending the sentinel block keeps the chain. -/
theorem chainB_append_sentinel (a b : List α) :
    ∀ (l : List (Nat × Nat × Nat)) (i j : Nat), ChainB a b i j l →
      ChainB a b i j (l ++ [(a.length, b.length, 0)]) := by
  intro l
  induction l with
  | nil =>
    intro i j h
    exact ⟨h.1, h.2, fun u hu => absurd hu (by dsimp only; omega),
      by dsimp only; omega, by dsimp only; omega⟩
  | cons t rest ih =>
    intro i j h
    obtain ⟨h1, h2, h3, h4⟩ := h
    exact ⟨h1, h2, h3, ih _ _ h4⟩

/-- The blocks returned by `get_matching_blocks` form a chain of common runs
from the origin, and end with the sentinel `(len a, len b, 0)`. -/
theorem get_matching_blocks_chain (m : Matcher α) :
    ChainB m.a m.b 0 0 m.get_matching_blocks ∧
    ∃ core, m.get_matching_blocks = core ++ [(m.a.length, m.b.length, 0)] := by
  constructor
  · unfold Matcher.get_matching_blocks
    have hraw := gmb_loop_spec m [(0, m.a.length, 0, m.b.length)] []
      (by intro r hr
          rw [List.mem_singleton] at hr
          rw [hr]
          exact ⟨le_rfl, le_rfl⟩)
      (List.pairwise_singleton _ _)
      (by intro t ht; simp at ht)
      List.Pairwise.nil
      (by intro t ht; simp at ht)
    obtain ⟨hmok, hsep⟩ := hraw
    have hperm := (List.mergeSort_perm (m.gmb_loop [(0, m.a.length, 0, m.b.length)] []) block_le)
    have hmok2 : ∀ t ∈ (m.gmb_loop [(0, m.a.length, 0, m.b.length)] []).mergeSort block_le,
        MOk m t := fun t ht => hmok t (hperm.mem_iff.mp ht)
    have hsep2 : List.Pairwise BlocksSep
        ((m.gmb_loop [(0, m.a.length, 0, m.b.length)] []).mergeSort block_le) :=
      hsep.perm hperm.symm (fun h => Or.symm h)
    have hsort := List.sorted_mergeSort
      (fun t u v h1 h2 => block_le_trans t u v h1 h2)
      (fun t u => block_le_total t u)
      (m.gmb_loop [(0, m.a.length, 0, m.b.length)] [])
    have hchain := chain_of_sorted m _ hmok2 hsep2 hsort 0 0 (Nat.zero_le _) (Nat.zero_le _)
      (fun t0 _ => ⟨Nat.zero_le _, Nat.zero_le _⟩)
    have hmerged := merge_adjacent_chain m.a m.b _ 0 0 0 0 0 le_rfl le_rfl
      (fun u hu => absurd hu (by dsimp only; omega)) (by simp) (by simp)
      (by simpa using hchain)
    exact chainB_append_sentinel m.a m.b _ 0 0 hmerged
  · exact ⟨_, rfl⟩

/-! ## Emission lemmas: what each Differ generator contributes to each side -/

theorem keeps_before_cons2 (c d : Char) (x : String) :
    keeps_before (String.mk [c, d] ++ x) = (c = ' ' || c = '-') := by
  simp [keeps_before, py_at0, String.data_append]

theorem keeps_after_cons2 (c d : Char) (x : String) :
    keeps_after (String.mk [c, d] ++ x) = (c = ' ' || c = '+') := by
  simp [keeps_after, py_at0, String.data_append]

theorem drop2_cons2 (c d : Char) (x : String) : py_drop 2 (String.mk [c, d] ++ x) = x := by
  cases x with
  | mk l => simp [py_drop, String.data_append]

theorem tag_shape_cons2 (c : Char) (x : String)
    (h : c = ' ' ∨ c = '+' ∨ c = '-' ∨ c = '?') : tag_shape (String.mk [c, ' '] ++ x) := by
  refine ⟨x, ?_⟩
  rcases h with h | h | h | h <;> subst h
  · exact Or.inl rfl
  · exact Or.inr (Or.inl rfl)
  · exact Or.inr (Or.inr (Or.inl rfl))
  · exact Or.inr (Or.inr (Or.inr rfl))

theorem restrict_before_append (l1 l2 : List String) :
    restrict_before (l1 ++ l2) = restrict_before l1 ++ restrict_before l2 := by
  simp [restrict_before, List.filter_append]

theorem restrict_after_append (l1 l2 : List String) :
    restrict_after (l1 ++ l2) = restrict_after l1 ++ restrict_after l2 := by
  simp [restrict_after, List.filter_append]

theorem restrict_before_map_tag (c : Char) (l : List String) :
    restrict_before (l.map (fun x => String.mk [c, ' '] ++ x)) =
      if c = ' ' ∨ c = '-' then l else [] := by
  induction l with
  | nil => simp [restrict_before]
  | cons x xs ih =>
    by_cases hc : c = ' ' ∨ c = '-'
    · rw [if_pos hc]
      rw [if_pos hc] at ih
      simp only [List.map_cons, restrict_before, List.filter_cons, keeps_before_cons2]
      have hb : (c = ' ' || c = '-') = true := by
        rcases hc with h | h <;> simp [h]
      rw [hb]
      simp only [if_true, List.map_cons, drop2_cons2]
      simp only [restrict_before] at ih
      rw [ih]
    · rw [if_neg hc]
      rw [if_neg hc] at ih
      simp only [List.map_cons, restrict_before, List.filter_cons, keeps_before_cons2]
      have hb : (c = ' ' || c = '-') = false := by
        push_neg at hc
        simp [hc.1, hc.2]
      rw [hb]
      simp only [Bool.false_eq_true, if_false]
      simp only [restrict_before] at ih
      rw [ih]

theorem restrict_after_map_tag (c : Char) (l : List String) :
    restrict_after (l.map (fun x => String.mk [c, ' '] ++ x)) =
      if c = ' ' ∨ c = '+' then l else [] := by
  induction l with
  | nil => simp [restrict_after]
  | cons x xs ih =>
    by_cases hc : c = ' ' ∨ c = '+'
    · rw [if_pos hc]
      rw [if_pos hc] at ih
      simp only [List.map_cons, restrict_after, List.filter_cons, keeps_after_cons2]
      have hb : (c = ' ' || c = '+') = true := by
        rcases hc with h | h <;> simp [h]
      rw [hb]
      simp only [if_true, List.map_cons, drop2_cons2]
      simp only [restrict_after] at ih
      rw [ih]
    · rw [if_neg hc]
      rw [if_neg hc] at ih
      simp only [List.map_cons, restrict_after, List.filter_cons, keeps_after_cons2]
      have hb : (c = ' ' || c = '+') = false := by
        push_neg at hc
        simp [hc.1, hc.2]
      rw [hb]
      simp only [Bool.false_eq_true, if_false]
      simp only [restrict_after] at ih
      rw [ih]

theorem dump_tagged_eq_map (tag : Char) (xs : List String) (lo hi : Nat) :
    dump_tagged tag xs lo hi = (slice xs lo hi).map (fun x => String.mk [tag, ' '] ++ x) := rfl

theorem restrict_before_dump (tag : Char) (xs : List String) (lo hi : Nat) :
    restrict_before (dump_tagged tag xs lo hi) =
      if tag = ' ' ∨ tag = '-' then slice xs lo hi else [] := by
  rw [dump_tagged_eq_map, restrict_before_map_tag]

theorem restrict_after_dump (tag : Char) (xs : List String) (lo hi : Nat) :
    restrict_after (dump_tagged tag xs lo hi) =
      if tag = ' ' ∨ tag = '+' then slice xs lo hi else [] := by
  rw [dump_tagged_eq_map, restrict_after_map_tag]

theorem dump_tagged_shape (tag : Char) (xs : List String) (lo hi : Nat)
    (h : tag = ' ' ∨ tag = '+' ∨ tag = '-' ∨ tag = '?') :
    ∀ l ∈ dump_tagged tag xs lo hi, tag_shape l := by
  intro l hl
  rw [dump_tagged_eq_map] at hl
  obtain ⟨x, _, hx⟩ := List.mem_map.mp hl
  rw [hx.symm] at *
  exact hx ▸ tag_shape_cons2 tag x h

/-! ### slices -/

theorem slice_zero_len {β : Type} (xs : List β) : slice xs 0 xs.length = xs := by
  simp [slice]

theorem slice_split {β : Type} (xs : List β) (lo mid hi : Nat)
    (h1 : lo ≤ mid) (h2 : mid ≤ hi) :
    slice xs lo hi = slice xs lo mid ++ slice xs mid hi := by
  unfold slice
  have he : hi - lo = (mid - lo) + (hi - mid) := by omega
  rw [he, List.take_add, List.drop_drop]
  have he2 : lo + (mid - lo) = mid := by omega
  rw [he2]

theorem slice_empty {β : Type} (xs : List β) (lo hi : Nat) (h : hi ≤ lo) :
    slice xs lo hi = [] := by
  unfold slice
  rw [Nat.sub_eq_zero_of_le h, List.take_zero]

/-- Two aligned runs of equal elements have equal slices. -/
theorem slice_eq_of_runeq (a b : List String) (i j k : Nat)
    (hrun : ∀ u, u < k → ∃ x, a.get? (i + u) = some x ∧ b.get? (j + u) = some x)
    (hia : i + k ≤ a.length) (hjb : j + k ≤ b.length) :
    slice a i (i + k) = slice b j (j + k) := by
  apply List.ext_get?
  intro n
  unfold slice
  have hsa : (i + k) - i = k := by omega
  have hsb : (j + k) - j = k := by omega
  rw [hsa, hsb]
  by_cases hn : n < k
  · obtain ⟨x, hx1, hx2⟩ := hrun n hn
    rw [List.get?_eq_getElem?] at hx1 hx2
    rw [List.get?_eq_getElem?, List.get?_eq_getElem?, List.getElem?_take_of_lt hn,
      List.getElem?_take_of_lt hn, List.getElem?_drop, List.getElem?_drop, hx1, hx2]
  · have hla : ((a.drop i).take k).length ≤ n := by
      have := List.length_take_le k (a.drop i)
      omega
    have hlb : ((b.drop j).take k).length ≤ n := by
      have := List.length_take_le k (b.drop j)
      omega
    rw [List.get?_eq_none.mpr hla, List.get?_eq_none.mpr hlb]



theorem data_append_dash (x : String) : ("- " ++ x).data = '-' :: ' ' :: x.data := by
  cases x with
  | mk l => rfl

theorem data_append_plus (x : String) : ("+ " ++ x).data = '+' :: ' ' :: x.data := by
  cases x with
  | mk l => rfl

theorem data_append_blank (x : String) : ("  " ++ x).data = ' ' :: ' ' :: x.data := by
  cases x with
  | mk l => rfl

theorem data_append_quest (x : String) : ("? " ++ x).data = '?' :: ' ' :: x.data := by
  cases x with
  | mk l => rfl

theorem keeps_before_dash (x : String) : keeps_before ("- " ++ x) = true := by
  simp [keeps_before, py_at0, data_append_dash]

theorem keeps_before_plus (x : String) : keeps_before ("+ " ++ x) = false := by
  simp [keeps_before, py_at0, data_append_plus]

theorem keeps_before_blank (x : String) : keeps_before ("  " ++ x) = true := by
  simp [keeps_before, py_at0, data_append_blank]

theorem keeps_before_quest (x : String) : keeps_before ("? " ++ x) = false := by
  simp [keeps_before, py_at0, data_append_quest]

theorem keeps_after_dash (x : String) : keeps_after ("- " ++ x) = false := by
  simp [keeps_after, py_at0, data_append_dash]

theorem keeps_after_plus (x : String) : keeps_after ("+ " ++ x) = true := by
  simp [keeps_after, py_at0, data_append_plus]

theorem keeps_after_blank (x : String) : keeps_after ("  " ++ x) = true := by
  simp [keeps_after, py_at0, data_append_blank]

theorem keeps_after_quest (x : String) : keeps_after ("? " ++ x) = false := by
  simp [keeps_after, py_at0, data_append_quest]

theorem drop2_dash (x : String) : py_drop 2 ("- " ++ x) = x := by
  cases x with
  | mk l => simp [py_drop, data_append_dash]

theorem drop2_plus (x : String) : py_drop 2 ("+ " ++ x) = x := by
  cases x with
  | mk l => simp [py_drop, data_append_plus]

theorem drop2_blank (x : String) : py_drop 2 ("  " ++ x) = x := by
  cases x with
  | mk l => simp [py_drop, data_append_blank]

theorem tag_shape_dash (x : String) : tag_shape ("- " ++ x) :=
  ⟨x, Or.inr (Or.inr (Or.inl rfl))⟩

theorem tag_shape_plus (x : String) : tag_shape ("+ " ++ x) :=
  ⟨x, Or.inr (Or.inl rfl)⟩

theorem tag_shape_blank (x : String) : tag_shape ("  " ++ x) :=
  ⟨x, Or.inl rfl⟩

theorem tag_shape_quest (x : String) : tag_shape ("? " ++ x) :=
  ⟨x, Or.inr (Or.inr (Or.inr rfl))⟩

theorem qformat_restrict_before (al bl atg btg : String) :
    restrict_before (qformat al bl atg btg) = [al] := by
  unfold qformat
  split_ifs <;>
    simp [restrict_before, List.filter_append, List.filter_cons, String.append_assoc,
      keeps_before_dash, keeps_before_plus, keeps_before_quest, drop2_dash]

theorem qformat_restrict_after (al bl atg btg : String) :
    restrict_after (qformat al bl atg btg) = [bl] := by
  unfold qformat
  split_ifs <;>
    simp [restrict_after, List.filter_append, List.filter_cons, String.append_assoc,
      keeps_after_dash, keeps_after_plus, keeps_after_quest, drop2_plus]

theorem qformat_shape (al bl atg btg : String) :
    ∀ l ∈ qformat al bl atg btg, tag_shape l := by
  intro l hl
  unfold qformat at hl
  rcases List.mem_append.mp hl with h1 | h4
  · rcases List.mem_append.mp h1 with h2 | h3
    · rcases List.mem_append.mp h2 with ha | hq1
      · rw [List.mem_singleton] at ha
        subst ha
        exact tag_shape_dash al
      · have hx := mem_ite_single hq1
        subst hx
        rw [String.append_assoc]
        exact tag_shape_quest _
    · rw [List.mem_singleton] at h3
      subst h3
      exact tag_shape_plus bl
  · have hx := mem_ite_single h4
    subst hx
    rw [String.append_assoc]
    exact tag_shape_quest _

theorem plain_replace_restrict (a b : List String) (alo ahi blo bhi : Nat) :
    restrict_before (plain_replace a b alo ahi blo bhi) = slice a alo ahi ∧
    restrict_after (plain_replace a b alo ahi blo bhi) = slice b blo bhi := by
  unfold plain_replace
  split_ifs <;>
    simp +decide [restrict_before_append, restrict_after_append, restrict_before_dump,
      restrict_after_dump]

theorem plain_replace_shape (a b : List String) (alo ahi blo bhi : Nat) :
    ∀ l ∈ plain_replace a b alo ahi blo bhi, tag_shape l := by
  intro l hl
  unfold plain_replace at hl
  split_ifs at hl <;> rcases List.mem_append.mp hl with h | h <;>
    exact dump_tagged_shape _ _ _ _ (by simp) l h

theorem restrict_before_cons (x : String) (l : List String) :
    restrict_before (x :: l) =
      (if keeps_before x then [py_drop 2 x] else []) ++ restrict_before l := by
  simp only [restrict_before, List.filter_cons]
  split_ifs with h
  · rw [List.map_cons]
    rfl
  · rfl

theorem restrict_after_cons (x : String) (l : List String) :
    restrict_after (x :: l) =
      (if keeps_after x then [py_drop 2 x] else []) ++ restrict_after l := by
  simp only [restrict_after, List.filter_cons]
  split_ifs with h
  · rw [List.map_cons]
    rfl
  · rfl

theorem slice_one (xs : List String) (i : Nat) (h : i < xs.length) :
    slice xs i (i + 1) = [xs.getD i ""] := by
  unfold slice
  have he : i + 1 - i = 1 := by omega
  rw [he]
  cases hdrop : xs.drop i with
  | nil =>
    have hlen := congrArg List.length hdrop
    rw [List.length_drop] at hlen
    simp at hlen
    omega
  | cons y ys =>
    have h1 : xs[i]? = some y := by
      have hh := List.head?_drop xs i
      rw [hdrop] at hh
      simp at hh
      exact hh.symm
    have h2 : xs.getD i "" = y := by
      rw [List.getD_eq_getElem?_getD, h1]
      rfl
    rw [h2]
    rfl

/-- The joint specification of `_fancy_replace` and `_fancy_helper`, by
induction on the size of the rectangle: the emitted lines project exactly
onto the two slices of the rectangle, and every emitted line carries one of
the four diff tags. -/
theorem fancy_restrict (a b : List String) :
    ∀ (N alo ahi blo bhi : Nat), (ahi - alo) + (bhi - blo) ≤ N →
      (alo < ahi → blo < bhi → ahi ≤ a.length → bhi ≤ b.length →
        restrict_before (fancy_replace a b alo ahi blo bhi) = slice a alo ahi ∧
        restrict_after (fancy_replace a b alo ahi blo bhi) = slice b blo bhi ∧
        ∀ l ∈ fancy_replace a b alo ahi blo bhi, tag_shape l) ∧
      (ahi ≤ a.length → bhi ≤ b.length →
        restrict_before (fancy_helper a b alo ahi blo bhi) = slice a alo ahi ∧
        restrict_after (fancy_helper a b alo ahi blo bhi) = slice b blo bhi ∧
        ∀ l ∈ fancy_helper a b alo ahi blo bhi, tag_shape l) := by
  intro N
  induction N with
  | zero =>
    intro alo ahi blo bhi hN
    constructor
    · intro h1 h2 _ _
      omega
    · intro hva hvb
      rw [fancy_helper]
      rw [if_neg (by omega : ¬ alo < ahi), if_neg (by omega : ¬ blo < bhi)]
      refine ⟨?_, ?_, ?_⟩
      · rw [slice_empty a alo ahi (by omega)]
        rfl
      · rw [slice_empty b blo bhi (by omega)]
        rfl
      · intro l hl
        simp at hl
  | succ N ih =>
    intro alo ahi blo bhi hN
    have hrep : alo < ahi → blo < bhi → ahi ≤ a.length → bhi ≤ b.length →
        restrict_before (fancy_replace a b alo ahi blo bhi) = slice a alo ahi ∧
        restrict_after (fancy_replace a b alo ahi blo bhi) = slice b blo bhi ∧
        ∀ l ∈ fancy_replace a b alo ahi blo bhi, tag_shape l := by
      intro h1 h2 hva hvb
      rw [fancy_replace]
      by_cases hcut : (fancy_best a b alo ahi blo bhi).bratioQ < 75 / 100
      · rw [if_pos hcut]
        split
        · -- no identical pair: plain replace
          obtain ⟨hpb, hpa⟩ := plain_replace_restrict a b alo ahi blo bhi
          exact ⟨hpb, hpa, plain_replace_shape a b alo ahi blo bhi⟩
        · -- synchronize on the first identical pair
          rename_i ei ej heq
          obtain ⟨⟨he1, he2, he3, he4⟩, heqv⟩ :=
            (fancy_best_mem a b alo ahi blo bhi).2.1 ei ej heq
          obtain ⟨hb1, ha1, hs1⟩ := (ih alo ei blo ej (by omega)).2 (by omega) (by omega)
          obtain ⟨hb2, ha2, hs2⟩ := (ih (ei + 1) ahi (ej + 1) bhi (by omega)).2 hva hvb
          refine ⟨?_, ?_, ?_⟩
          · rw [restrict_before_append, restrict_before_cons, hb1, hb2]
            rw [if_pos (keeps_before_blank _), drop2_blank]
            rw [slice_split a alo ei ahi (by omega) (by omega),
              slice_split a ei (ei + 1) ahi (by omega) (by omega),
              slice_one a ei (by omega)]
          · rw [restrict_after_append, restrict_after_cons, ha1, ha2]
            rw [if_pos (keeps_after_blank _), drop2_blank]
            rw [slice_split b blo ej bhi (by omega) (by omega),
              slice_split b ej (ej + 1) bhi (by omega) (by omega),
              slice_one b ej (by omega), heqv]
          · intro l hl
            rcases List.mem_append.mp hl with h | h
            · exact hs1 l h
            · rcases List.mem_cons.mp h with h0 | h0
              · rw [h0]
                exact tag_shape_blank _
              · exact hs2 l h0
      · rw [if_neg hcut]
        split
        · -- unreachable: a ratio at or above the cutoff comes from an update
          rename_i heq
          exfalso
          have h74 := (fancy_best_mem a b alo ahi blo bhi).2.2 heq
          rw [h74] at hcut
          exact hcut (by norm_num)
        · rename_i bi bj heq
          obtain ⟨he1, he2, he3, he4⟩ := (fancy_best_mem a b alo ahi blo bhi).1 bi bj heq
          obtain ⟨hb1, ha1, hs1⟩ := (ih alo bi blo bj (by omega)).2 (by omega) (by omega)
          obtain ⟨hb2, ha2, hs2⟩ := (ih (bi + 1) ahi (bj + 1) bhi (by omega)).2 hva hvb
          refine ⟨?_, ?_, ?_⟩
          · rw [restrict_before_append, restrict_before_append, hb1, hb2,
              qformat_restrict_before]
            rw [slice_split a alo bi ahi (by omega) (by omega),
              slice_split a bi (bi + 1) ahi (by omega) (by omega),
              slice_one a bi (by omega), List.append_assoc]
          · rw [restrict_after_append, restrict_after_append, ha1, ha2,
              qformat_restrict_after]
            rw [slice_split b blo bj bhi (by omega) (by omega),
              slice_split b bj (bj + 1) bhi (by omega) (by omega),
              slice_one b bj (by omega), List.append_assoc]
          · intro l hl
            rcases List.mem_append.mp hl with h | h
            · rcases List.mem_append.mp h with h' | h'
              · exact hs1 l h'
              · exact qformat_shape _ _ _ _ l h'
            · exact hs2 l h
    refine ⟨hrep, ?_⟩
    intro hva hvb
    rw [fancy_helper]
    by_cases h1 : alo < ahi
    · rw [if_pos h1]
      by_cases h2 : blo < bhi
      · rw [if_pos h2]
        exact hrep h1 h2 hva hvb
      · rw [if_neg h2]
        refine ⟨?_, ?_, ?_⟩
        · rw [restrict_before_dump]
          simp
        · rw [restrict_after_dump]
          rw [slice_empty b blo bhi (by omega)]
          simp
        · exact dump_tagged_shape _ _ _ _ (by simp)
    · rw [if_neg h1]
      by_cases h2 : blo < bhi
      · rw [if_pos h2]
        refine ⟨?_, ?_, ?_⟩
        · rw [restrict_before_dump]
          rw [slice_empty a alo ahi (by omega)]
          simp
        · rw [restrict_after_dump]
          simp
        · exact dump_tagged_shape _ _ _ _ (by simp)
      · rw [if_neg h2]
        refine ⟨?_, ?_, ?_⟩
        · rw [slice_empty a alo ahi (by omega)]
          rfl
        · rw [slice_empty b blo bhi (by omega)]
          rfl
        · intro l hl
          simp at hl

theorem foldl_append_eq_flatMap {γ δ : Type} (g : δ → List γ) (l : List δ) (init : List γ) :
    l.foldl (fun acc op => acc ++ g op) init = init ++ l.flatMap g := by
  induction l generalizing init with
  | nil => simp
  | cons x xs ih =>
    rw [List.foldl_cons, ih, List.flatMap_cons, List.append_assoc]

theorem compare_lines_eq (a b : List String) :
    compare_lines a b = (line_matcher a b).get_opcodes.flatMap (dispatch_op a b) := by
  unfold compare_lines
  rw [foldl_append_eq_flatMap]
  rfl

/-- What the opcode classifying the gap between the current position and the
next matching block contributes. -/
theorem gap_emit (a b : List String) (i ai j bj : Nat)
    (hi : i ≤ ai) (hj : j ≤ bj) (hva : ai ≤ a.length) (hvb : bj ≤ b.length) :
    restrict_before (((if i < ai ∧ j < bj then [⟨OpTag.replace, i, ai, j, bj⟩]
      else if i < ai then [⟨OpTag.delete, i, ai, j, bj⟩]
      else if j < bj then [⟨OpTag.insert, i, ai, j, bj⟩]
      else []) : List Opcode).flatMap (dispatch_op a b)) = slice a i ai ∧
    restrict_after (((if i < ai ∧ j < bj then [⟨OpTag.replace, i, ai, j, bj⟩]
      else if i < ai then [⟨OpTag.delete, i, ai, j, bj⟩]
      else if j < bj then [⟨OpTag.insert, i, ai, j, bj⟩]
      else []) : List Opcode).flatMap (dispatch_op a b)) = slice b j bj ∧
    ∀ l ∈ ((if i < ai ∧ j < bj then [⟨OpTag.replace, i, ai, j, bj⟩]
      else if i < ai then [⟨OpTag.delete, i, ai, j, bj⟩]
      else if j < bj then [⟨OpTag.insert, i, ai, j, bj⟩]
      else []) : List Opcode).flatMap (dispatch_op a b), tag_shape l := by
  by_cases h1 : i < ai ∧ j < bj
  · rw [if_pos h1]
    simp only [List.flatMap_cons, List.flatMap_nil, List.append_nil]
    obtain ⟨hr1, hr2, hr3⟩ := (fancy_restrict a b ((ai - i) + (bj - j)) i ai j bj le_rfl).1
      h1.1 h1.2 hva hvb
    exact ⟨hr1, hr2, hr3⟩
  · rw [if_neg h1]
    by_cases h2 : i < ai
    · rw [if_pos h2]
      have hjbj : j = bj := by omega
      subst hjbj
      simp only [List.flatMap_cons, List.flatMap_nil, List.append_nil]
      refine ⟨?_, ?_, ?_⟩
      · rw [show dispatch_op a b ⟨OpTag.delete, i, ai, j, j⟩ = dump_tagged '-' a i ai from rfl,
          restrict_before_dump]
        simp
      · rw [show dispatch_op a b ⟨OpTag.delete, i, ai, j, j⟩ = dump_tagged '-' a i ai from rfl,
          restrict_after_dump]
        rw [slice_empty b j j le_rfl]
        simp
      · intro l hl
        exact dump_tagged_shape '-' a i ai (by simp) l hl
    · rw [if_neg h2]
      have hiai : i = ai := by omega
      subst hiai
      by_cases h3 : j < bj
      · rw [if_pos h3]
        simp only [List.flatMap_cons, List.flatMap_nil, List.append_nil]
        refine ⟨?_, ?_, ?_⟩
        · rw [show dispatch_op a b ⟨OpTag.insert, i, i, j, bj⟩ = dump_tagged '+' b j bj from rfl,
            restrict_before_dump]
          rw [slice_empty a i i le_rfl]
          simp
        · rw [show dispatch_op a b ⟨OpTag.insert, i, i, j, bj⟩ = dump_tagged '+' b j bj from rfl,
            restrict_after_dump]
          simp
        · intro l hl
          exact dump_tagged_shape '+' b j bj (by simp) l hl
      · rw [if_neg h3]
        have hjbj : j = bj := by omega
        subst hjbj
        rw [List.flatMap_nil, slice_empty a i i le_rfl, slice_empty b j j le_rfl]
        exact ⟨rfl, rfl, fun l hl => absurd hl (List.not_mem_nil l)⟩

/-- The full emission lemma: the opcodes of a chained block list, dispatched
through the Differ generators, project exactly onto the two remaining slices. -/
theorem opcodes_emit (a b : List String) :
    ∀ (core : List (Nat × Nat × Nat)) (i j : Nat),
      ChainB a b i j (core ++ [(a.length, b.length, 0)]) →
      restrict_before ((opcodes_go i j (core ++ [(a.length, b.length, 0)])).flatMap
        (dispatch_op a b)) = slice a i a.length ∧
      restrict_after ((opcodes_go i j (core ++ [(a.length, b.length, 0)])).flatMap
        (dispatch_op a b)) = slice b j b.length ∧
      ∀ l ∈ (opcodes_go i j (core ++ [(a.length, b.length, 0)])).flatMap (dispatch_op a b),
        tag_shape l := by
  intro core
  induction core with
  | nil =>
    intro i j hchain
    obtain ⟨hi, hj, _, hla, hlb⟩ := hchain
    rw [List.nil_append, opcodes_go]
    simp only [List.append_nil, ne_eq, not_true_eq_false, Bool.false_eq_true, if_false]
    have hgap := gap_emit a b i a.length j b.length hi hj le_rfl le_rfl
    simp only [if_neg (by simp : ¬ (0 : Nat) ≠ 0), List.append_nil] at *
    rw [opcodes_go]
    simp only [List.append_nil]
    exact hgap
  | cons blk core ih =>
    intro i j hchain
    obtain ⟨hi, hj, hrun, hrest⟩ := hchain
    obtain ⟨ai, bj, k⟩ := blk
    dsimp only at hi hj hrun hrest
    have hbounds := chainB_le a b _ _ _ hrest
    rw [List.cons_append, opcodes_go]
    simp only [List.flatMap_append]
    have hgap := gap_emit a b i ai j bj hi hj (by omega) (by omega)
    have hih := ih (ai + k) (bj + k) hrest
    have heqpart :
        restrict_before (((if k ≠ 0 then [⟨OpTag.equal, ai, ai + k, bj, bj + k⟩]
          else []) : List Opcode).flatMap (dispatch_op a b)) = slice a ai (ai + k) ∧
        restrict_after (((if k ≠ 0 then [⟨OpTag.equal, ai, ai + k, bj, bj + k⟩]
          else []) : List Opcode).flatMap (dispatch_op a b)) = slice b bj (bj + k) ∧
        ∀ l ∈ ((if k ≠ 0 then [⟨OpTag.equal, ai, ai + k, bj, bj + k⟩]
          else []) : List Opcode).flatMap (dispatch_op a b), tag_shape l := by
      by_cases hk : k ≠ 0
      · rw [if_pos hk]
        simp only [List.flatMap_cons, List.flatMap_nil, List.append_nil]
        refine ⟨?_, ?_, ?_⟩
        · rw [show dispatch_op a b ⟨OpTag.equal, ai, ai + k, bj, bj + k⟩ =
              dump_tagged ' ' a ai (ai + k) from rfl, restrict_before_dump]
          simp
        · rw [show dispatch_op a b ⟨OpTag.equal, ai, ai + k, bj, bj + k⟩ =
              dump_tagged ' ' a ai (ai + k) from rfl, restrict_after_dump]
          rw [if_pos (Or.inl rfl)]
          exact slice_eq_of_runeq a b ai bj k hrun (by omega) (by omega)
        · intro l hl
          exact dump_tagged_shape ' ' a ai (ai + k) (by simp) l hl
      · rw [if_neg hk]
        push_neg at hk
        subst hk
        rw [List.flatMap_nil, slice_empty a ai (ai + 0) (by omega),
          slice_empty b bj (bj + 0) (by omega)]
        exact ⟨rfl, rfl, fun l hl => absurd hl (List.not_mem_nil l)⟩
    refine ⟨?_, ?_, ?_⟩
    · rw [restrict_before_append, restrict_before_append, hgap.1, heqpart.1, hih.1]
      rw [slice_split a i ai a.length hi (by omega),
        slice_split a ai (ai + k) a.length (by omega) (by omega), List.append_assoc]
    · rw [restrict_after_append, restrict_after_append, hgap.2.1, heqpart.2.1, hih.2.1]
      rw [slice_split b j bj b.length hj (by omega),
        slice_split b bj (bj + k) b.length (by omega) (by omega), List.append_assoc]
    · intro l hl
      rcases List.mem_append.mp hl with h | h
      · rcases List.mem_append.mp h with h2 | h2
        · exact hgap.2.2 l h2
        · exact heqpart.2.2 l h2
      · exact hih.2.2 l h

/-- Reconstruction and shape for `ndiff`: the `Equal`+`Delete` contents give
back `a`, the `Equal`+`Insert` contents give back `b`, and every line has one
of the four two-character tags. -/
theorem ndiff_reconstruct (a b : List String) :
    restrict_before (ndiff a b) = a ∧ restrict_after (ndiff a b) = b ∧
    ∀ l ∈ ndiff a b, tag_shape l := by
  obtain ⟨hchain, core, hcore⟩ := get_matching_blocks_chain (line_matcher a b)
  have hcore2 : (line_matcher a b).get_matching_blocks =
      core ++ [(a.length, b.length, 0)] := hcore
  have hchain2 : ChainB a b 0 0 (core ++ [(a.length, b.length, 0)]) := hcore2 ▸ hchain
  have hemit := opcodes_emit a b core 0 0 hchain2
  rw [slice_zero_len, slice_zero_len] at hemit
  have hnd : ndiff a b =
      (opcodes_go 0 0 (core ++ [(a.length, b.length, 0)])).flatMap (dispatch_op a b) := by
    show compare_lines a b = _
    rw [compare_lines_eq]
    show (opcodes_go 0 0 (line_matcher a b).get_matching_blocks).flatMap (dispatch_op a b) = _
    rw [hcore2]
  rw [hnd]
  exact hemit

/-! ## Concrete evaluations and the ten claims -/

theorem flm_line_AB : (line_matcher ["A"] ["A", "B"]).find_longest_match 0 1 0 2 = (0, 0, 1) := by
  rw [Matcher.find_longest_match]
  rw [show (line_matcher ["A"] ["A", "B"]).flm_dict 0 1 0 2 = (0, 0, 1) from by decide]
  simp +decide [Matcher.flm_ext1, Matcher.flm_ext2, Matcher.flm_ext3, Matcher.flm_ext4]

theorem gmb_line_AB :
    (line_matcher ["A"] ["A", "B"]).gmb_loop [(0, 1, 0, 2)] [] = [(0, 0, 1)] := by
  rw [Matcher.gmb_loop, flm_line_AB]
  norm_num
  rw [Matcher.gmb_loop]

theorem line_blocks_AB :
    (line_matcher ["A"] ["A", "B"]).get_matching_blocks = [(0, 0, 1), (1, 2, 0)] := by
  rw [Matcher.get_matching_blocks]
  rw [show (line_matcher ["A"] ["A", "B"]).a.length = 1 from rfl,
      show (line_matcher ["A"] ["A", "B"]).b.length = 2 from rfl]
  rw [show (line_matcher ["A"] ["A", "B"]).gmb_loop [(0, 1, 0, 2)] [] = [(0, 0, 1)] from gmb_line_AB]
  rw [List.mergeSort_singleton]
  decide

theorem block_le_antisymm (x y : Nat × Nat × Nat) (h1 : block_le x y = true)
    (h2 : block_le y x = true) : x = y := by
  obtain ⟨x1, x2, x3⟩ := x
  obtain ⟨y1, y2, y3⟩ := y
  simp only [block_le, Bool.or_eq_true, Bool.and_eq_true, decide_eq_true_eq] at h1 h2
  have h3 : x1 = y1 ∧ x2 = y2 ∧ x3 = y3 := by omega
  simp [h3.1, h3.2.1, h3.2.2]

/-- Evaluate `mergeSort` on a concrete list by naming the sorted target. -/
theorem mergeSort_eval (l tgt : List (Nat × Nat × Nat)) (hp : l.Perm tgt)
    (hs : tgt.Pairwise (fun x y => block_le x y = true)) :
    l.mergeSort block_le = tgt := by
  refine List.Perm.eq_of_sorted (fun a b _ _ hab hba => block_le_antisymm a b hab hba)
    ?_ hs ((List.mergeSort_perm l block_le).trans hp)
  exact List.sorted_mergeSort (fun t u v h1 h2 => block_le_trans t u v h1 h2)
    (fun t u => block_le_total t u) l

theorem ndiff_single_insert : ndiff ["A"] ["A", "B"] = ["  A", "+ B"] := by
  show (line_matcher ["A"] ["A", "B"]).get_opcodes.foldl
    (fun acc op => acc ++ dispatch_op ["A"] ["A", "B"] op) [] = _
  rw [Matcher.get_opcodes, line_blocks_AB]
  rw [show opcodes_go 0 0 [(0, 0, 1), (1, 2, 0)] =
    [⟨OpTag.equal, 0, 1, 0, 1⟩, ⟨OpTag.insert, 1, 1, 1, 2⟩] from rfl]
  decide

theorem flm_ABC_0 :
    (line_matcher ["A\n", "B\n", "C\n"] ["A\n", "X\n", "C\n"]).find_longest_match 0 3 0 3 =
      (0, 0, 1) := by
  rw [Matcher.find_longest_match]
  rw [show (line_matcher ["A\n", "B\n", "C\n"] ["A\n", "X\n", "C\n"]).flm_dict 0 3 0 3 =
    (0, 0, 1) from by decide]
  simp +decide [Matcher.flm_ext1, Matcher.flm_ext2, Matcher.flm_ext3, Matcher.flm_ext4]

theorem flm_ABC_1 :
    (line_matcher ["A\n", "B\n", "C\n"] ["A\n", "X\n", "C\n"]).find_longest_match 1 3 1 3 =
      (2, 2, 1) := by
  rw [Matcher.find_longest_match]
  rw [show (line_matcher ["A\n", "B\n", "C\n"] ["A\n", "X\n", "C\n"]).flm_dict 1 3 1 3 =
    (2, 2, 1) from by decide]
  simp +decide [Matcher.flm_ext1, Matcher.flm_ext2, Matcher.flm_ext3, Matcher.flm_ext4]

theorem flm_ABC_2 :
    (line_matcher ["A\n", "B\n", "C\n"] ["A\n", "X\n", "C\n"]).find_longest_match 1 2 1 2 =
      (1, 1, 0) := by
  rw [Matcher.find_longest_match]
  rw [show (line_matcher ["A\n", "B\n", "C\n"] ["A\n", "X\n", "C\n"]).flm_dict 1 2 1 2 =
    (1, 1, 0) from by decide]
  simp +decide [Matcher.flm_ext1, Matcher.flm_ext2, Matcher.flm_ext3, Matcher.flm_ext4]

theorem gmb_ABC :
    (line_matcher ["A\n", "B\n", "C\n"] ["A\n", "X\n", "C\n"]).gmb_loop [(0, 3, 0, 3)] [] =
      [(2, 2, 1), (0, 0, 1)] := by
  rw [Matcher.gmb_loop, flm_ABC_0]
  norm_num
  rw [Matcher.gmb_loop, flm_ABC_1]
  norm_num
  rw [Matcher.gmb_loop, flm_ABC_2]
  norm_num
  rw [Matcher.gmb_loop]

theorem line_blocks_ABC :
    (line_matcher ["A\n", "B\n", "C\n"] ["A\n", "X\n", "C\n"]).get_matching_blocks =
      [(0, 0, 1), (2, 2, 1), (3, 3, 0)] := by
  rw [Matcher.get_matching_blocks]
  rw [show (line_matcher ["A\n", "B\n", "C\n"] ["A\n", "X\n", "C\n"]).a.length = 3 from rfl,
      show (line_matcher ["A\n", "B\n", "C\n"] ["A\n", "X\n", "C\n"]).b.length = 3 from rfl]
  rw [gmb_ABC]
  rw [mergeSort_eval [(2, 2, 1), (0, 0, 1)] [(0, 0, 1), (2, 2, 1)]
    (List.Perm.swap (0, 0, 1) (2, 2, 1) []) (by decide)]
  decide

theorem quick_BX : (char_matcher "B\n" "X\n").quick_ratioQ = 1 / 2 := by
  show calculate_ratioQ 1 4 = 1 / 2
  rw [calculate_ratioQ]
  norm_num

theorem fancy_best_BX :
    fancy_best ["A\n", "B\n", "C\n"] ["A\n", "X\n", "C\n"] 1 2 1 2 =
      ⟨74 / 100, none, none⟩ := by
  rw [fancy_best]
  rw [show List.range' 1 (2 - 1) = [1] from rfl]
  rw [List.foldl_cons, List.foldl_nil, List.foldl_cons, List.foldl_nil]
  rw [show (["A\n", "B\n", "C\n"] : List String).getD 1 "" = "B\n" from rfl,
      show (["A\n", "X\n", "C\n"] : List String).getD 1 "" = "X\n" from rfl]
  rw [if_neg (by decide : ¬ ("B\n" : String) = "X\n")]
  split_ifs with h
  · exfalso
    rw [quick_BX] at h
    have h2 : (1 : ℚ) / 2 > 74 / 100 := h.2.1
    norm_num at h2
  · rfl

theorem fancy_replace_BX :
    fancy_replace ["A\n", "B\n", "C\n"] ["A\n", "X\n", "C\n"] 1 2 1 2 =
      ["- B\n", "+ X\n"] := by
  rw [fancy_replace, fancy_best_BX]
  rw [if_pos (show (⟨74 / 100, none, none⟩ : FancyState).bratioQ < 75 / 100 from by norm_num)]
  show plain_replace ["A\n", "B\n", "C\n"] ["A\n", "X\n", "C\n"] 1 2 1 2 = _
  decide

theorem ndiff_ABC :
    ndiff ["A\n", "B\n", "C\n"] ["A\n", "X\n", "C\n"] =
      ["  A\n", "- B\n", "+ X\n", "  C\n"] := by
  show (line_matcher ["A\n", "B\n", "C\n"] ["A\n", "X\n", "C\n"]).get_opcodes.foldl
    (fun acc op => acc ++ dispatch_op ["A\n", "B\n", "C\n"] ["A\n", "X\n", "C\n"] op) [] = _
  rw [Matcher.get_opcodes, line_blocks_ABC]
  rw [show opcodes_go 0 0 [(0, 0, 1), (2, 2, 1), (3, 3, 0)] =
    [⟨OpTag.equal, 0, 1, 0, 1⟩, ⟨OpTag.replace, 1, 2, 1, 2⟩, ⟨OpTag.equal, 2, 3, 2, 3⟩]
    from rfl]
  rw [List.foldl_cons, List.foldl_cons, List.foldl_cons, List.foldl_nil]
  rw [show dispatch_op ["A\n", "B\n", "C\n"] ["A\n", "X\n", "C\n"] ⟨OpTag.replace, 1, 2, 1, 2⟩ =
    fancy_replace ["A\n", "B\n", "C\n"] ["A\n", "X\n", "C\n"] 1 2 1 2 from rfl]
  rw [fancy_replace_BX]
  decide

theorem flm_lab : (line_matcher ["abcd"] ["abce"]).find_longest_match 0 1 0 1 = (0, 0, 0) := by
  rw [Matcher.find_longest_match]
  rw [show (line_matcher ["abcd"] ["abce"]).flm_dict 0 1 0 1 = (0, 0, 0) from by decide]
  simp +decide [Matcher.flm_ext1, Matcher.flm_ext2, Matcher.flm_ext3, Matcher.flm_ext4]

theorem gmb_lab : (line_matcher ["abcd"] ["abce"]).gmb_loop [(0, 1, 0, 1)] [] = [] := by
  rw [Matcher.gmb_loop, flm_lab]
  norm_num
  rw [Matcher.gmb_loop]

theorem line_blocks_abcd :
    (line_matcher ["abcd"] ["abce"]).get_matching_blocks = [(1, 1, 0)] := by
  rw [Matcher.get_matching_blocks]
  rw [show (line_matcher ["abcd"] ["abce"]).a.length = 1 from rfl,
      show (line_matcher ["abcd"] ["abce"]).b.length = 1 from rfl]
  rw [gmb_lab, List.mergeSort_nil]
  decide

theorem flm_cab_0 : (char_matcher "abcd" "abce").find_longest_match 0 4 0 4 = (0, 0, 3) := by
  rw [Matcher.find_longest_match]
  rw [show (char_matcher "abcd" "abce").flm_dict 0 4 0 4 = (0, 0, 3) from by decide]
  simp +decide [Matcher.flm_ext1, Matcher.flm_ext2, Matcher.flm_ext3, Matcher.flm_ext4]

theorem flm_cab_1 : (char_matcher "abcd" "abce").find_longest_match 3 4 3 4 = (3, 3, 0) := by
  rw [Matcher.find_longest_match]
  rw [show (char_matcher "abcd" "abce").flm_dict 3 4 3 4 = (3, 3, 0) from by decide]
  simp +decide [Matcher.flm_ext1, Matcher.flm_ext2, Matcher.flm_ext3, Matcher.flm_ext4]

theorem gmb_cab : (char_matcher "abcd" "abce").gmb_loop [(0, 4, 0, 4)] [] = [(0, 0, 3)] := by
  rw [Matcher.gmb_loop, flm_cab_0]
  norm_num
  rw [Matcher.gmb_loop, flm_cab_1]
  norm_num
  rw [Matcher.gmb_loop]

theorem char_blocks_abcd :
    (char_matcher "abcd" "abce").get_matching_blocks = [(0, 0, 3), (4, 4, 0)] := by
  rw [Matcher.get_matching_blocks]
  rw [show (char_matcher "abcd" "abce").a.length = 4 from rfl,
      show (char_matcher "abcd" "abce").b.length = 4 from rfl]
  rw [gmb_cab, List.mergeSort_singleton]
  decide

theorem ratio_abcd : (char_matcher "abcd" "abce").ratioQ = 3 / 4 := by
  rw [Matcher.ratioQ, char_blocks_abcd]
  show calculate_ratioQ 3 8 = 3 / 4
  rw [calculate_ratioQ]
  norm_num

theorem quick_abcd : (char_matcher "abcd" "abce").quick_ratioQ = 3 / 4 := by
  show calculate_ratioQ 3 8 = 3 / 4
  rw [calculate_ratioQ]
  norm_num

theorem real_quick_abcd : (char_matcher "abcd" "abce").real_quick_ratioQ = 1 := by
  show calculate_ratioQ 4 8 = 1
  rw [calculate_ratioQ]
  norm_num

theorem fancy_best_abcd :
    fancy_best ["abcd"] ["abce"] 0 1 0 1 = ⟨3 / 4, some (0, 0), none⟩ := by
  rw [fancy_best]
  rw [show List.range' 0 (1 - 0) = [0] from rfl]
  rw [List.foldl_cons, List.foldl_nil, List.foldl_cons, List.foldl_nil]
  rw [show (["abcd"] : List String).getD 0 "" = "abcd" from rfl,
      show (["abce"] : List String).getD 0 "" = "abce" from rfl]
  rw [if_neg (by decide : ¬ ("abcd" : String) = "abce")]
  have hcond : (char_matcher "abcd" "abce").real_quick_ratioQ >
        (⟨74 / 100, none, none⟩ : FancyState).bratioQ ∧
      (char_matcher "abcd" "abce").quick_ratioQ >
        (⟨74 / 100, none, none⟩ : FancyState).bratioQ ∧
      (char_matcher "abcd" "abce").ratioQ >
        (⟨74 / 100, none, none⟩ : FancyState).bratioQ := by
    refine ⟨?_, ?_, ?_⟩
    · rw [real_quick_abcd]
      show (1 : ℚ) > 74 / 100
      norm_num
    · rw [quick_abcd]
      show (3 : ℚ) / 4 > 74 / 100
      norm_num
    · rw [ratio_abcd]
      show (3 : ℚ) / 4 > 74 / 100
      norm_num
  rw [if_pos hcond, ratio_abcd]

theorem make_tags_abcd : make_tags "abcd" "abce" = ("   ^", "   ^") := by
  rw [make_tags, Matcher.get_opcodes, char_blocks_abcd]
  decide

theorem fancy_replace_abcd :
    fancy_replace ["abcd"] ["abce"] 0 1 0 1 =
      ["- abcd", "?    ^\n", "+ abce", "?    ^\n"] := by
  rw [fancy_replace, fancy_best_abcd]
  rw [if_neg (show ¬ (⟨3 / 4, some (0, 0), none⟩ : FancyState).bratioQ < 75 / 100 from by
    norm_num)]
  show fancy_helper ["abcd"] ["abce"] 0 0 0 0 ++
      qformat (["abcd"].getD 0 "") (["abce"].getD 0 "")
        (make_tags (["abcd"].getD 0 "") (["abce"].getD 0 "")).1
        (make_tags (["abcd"].getD 0 "") (["abce"].getD 0 "")).2 ++
      fancy_helper ["abcd"] ["abce"] (0 + 1) 1 (0 + 1) 1 = _
  rw [show (["abcd"] : List String).getD 0 "" = "abcd" from rfl,
      show (["abce"] : List String).getD 0 "" = "abce" from rfl, make_tags_abcd]
  rw [show fancy_helper ["abcd"] ["abce"] 0 0 0 0 = [] from by rw [fancy_helper]; norm_num,
      show fancy_helper ["abcd"] ["abce"] (0 + 1) 1 (0 + 1) 1 = [] from by
        rw [fancy_helper]; norm_num]
  decide

theorem ndiff_abcd :
    ndiff ["abcd"] ["abce"] = ["- abcd", "?    ^\n", "+ abce", "?    ^\n"] := by
  show (line_matcher ["abcd"] ["abce"]).get_opcodes.foldl
    (fun acc op => acc ++ dispatch_op ["abcd"] ["abce"] op) [] = _
  rw [Matcher.get_opcodes, line_blocks_abcd]
  rw [show opcodes_go 0 0 [(1, 1, 0)] = [⟨OpTag.replace, 0, 1, 0, 1⟩] from rfl]
  rw [List.foldl_cons, List.foldl_nil]
  rw [show dispatch_op ["abcd"] ["abce"] ⟨OpTag.replace, 0, 1, 0, 1⟩ =
    fancy_replace ["abcd"] ["abce"] 0 1 0 1 from rfl]
  rw [fancy_replace_abcd]
  rfl

theorem py_at0_plus_chain (x : String) : py_at0 ("+" ++ x) = some '+' := by
  cases x with | mk l => rfl

theorem py_at0_dash_chain (x : String) : py_at0 ("-" ++ x) = some '-' := by
  cases x with | mk l => rfl

/-- Every line `pretty_step` emits in machine mode under `show_only_changes`
starts with a plus or a minus. -/
theorem pretty_step_machine_changes (diff : List String) (o : RenderOpts)
    (hai : o.format_for_ai = true) (hso : o.show_only_changes = true)
    (n1 n2 : Nat) (line : String) :
    ∀ l ∈ (pretty_step diff o n1 n2 line).2.2,
      py_at0 l = some '+' ∨ py_at0 l = some '-' := by
  intro l hl
  unfold pretty_step at hl
  by_cases h1 : py_at0 line = some ' '
  · rw [if_pos h1, if_pos hso, if_pos hai] at hl
    exact absurd hl (List.not_mem_nil l)
  · rw [if_neg h1] at hl
    by_cases h2 : py_at0 line = some '+'
    · rw [if_pos h2, if_pos hai] at hl
      have hl2 := List.mem_singleton.mp hl
      subst hl2
      refine Or.inl ?_
      split_ifs <;> (simp only [String.append_assoc]; exact py_at0_plus_chain _)
    · rw [if_neg h2] at hl
      by_cases h3 : py_at0 line = some '-'
      · rw [if_pos h3, if_pos hai] at hl
        have hl2 := List.mem_singleton.mp hl
        subst hl2
        refine Or.inr ?_
        split_ifs <;> (simp only [String.append_assoc]; exact py_at0_dash_chain _)
      · rw [if_neg h3] at hl
        exact absurd hl (List.not_mem_nil l)

/-- The loop invariant behind claim C8. -/
theorem pretty_lines_machine_go (diff : List String) (o : RenderOpts)
    (hai : o.format_for_ai = true) (hso : o.show_only_changes = true) :
    ∀ (rest : List String) (n1 n2 : Nat) (out : List String),
      pretty_lines diff o rest n1 n2 = some out →
      ∀ l ∈ out, py_at0 l = some '+' ∨ py_at0 l = some '-' := by
  intro rest
  induction rest with
  | nil =>
    intro n1 n2 out h l hl
    rw [pretty_lines] at h
    cases h
    exact absurd hl (List.not_mem_nil l)
  | cons line rest ih =>
    intro n1 n2 out h l hl
    rw [pretty_lines] at h
    by_cases hline : line = ""
    · rw [if_pos hline] at h
      exact absurd h (by simp)
    · rw [if_neg hline] at h
      obtain ⟨ls, hls, rfl⟩ := Option.map_eq_some'.mp h
      rcases List.mem_append.mp hl with hm | hm
      · exact pretty_step_machine_changes diff o hai hso n1 n2 line l hm
      · exact ih _ _ ls hls l hm

/-- Claim C1: for every pair of input text-unit sequences, the `Equal` and
`Delete` contents of the edit script `compute_diff` returns, concatenated in
script order, give back the "before" sequence, and the `Equal` and `Insert`
contents give back the "after" sequence. -/
theorem C1_reconstruction (seq1 seq2 d : List String)
    (h : compute_diff (PyText.list seq1) (PyText.list seq2) = Except.ok d) :
    restrict_before d = seq1 ∧ restrict_after d = seq2 := by
  have h2 : Except.ok (ndiff seq1 seq2) = Except.ok d := h
  have hd := Except.ok.inj h2
  subst hd
  exact ⟨(ndiff_reconstruct seq1 seq2).1, (ndiff_reconstruct seq1 seq2).2.1⟩

/-- Witness for C1 at `seq1 = ["A"]`, `seq2 = ["A", "B"]`. -/
theorem C1_reconstruction_witness :
    restrict_before (ndiff ["A"] ["A", "B"]) = ["A"] ∧
    restrict_after (ndiff ["A"] ["A", "B"]) = ["A", "B"] :=
  C1_reconstruction ["A"] ["A", "B"] (ndiff ["A"] ["A", "B"]) rfl

/-- Claim C4 (amended): every element of the edit script is one of FOUR
two-character-tagged forms — Equal ("  "), Insert ("+ "), Delete ("- ") or an
intraline guide line ("? "); the spec's three-variant claim omits the fourth. -/
theorem C4_tag_shapes (seq1 seq2 d : List String)
    (h : compute_diff (PyText.list seq1) (PyText.list seq2) = Except.ok d) :
    ∀ l ∈ d, tag_shape l := by
  have h2 : Except.ok (ndiff seq1 seq2) = Except.ok d := h
  have hd := Except.ok.inj h2
  subst hd
  exact (ndiff_reconstruct seq1 seq2).2.2

/-- Witness for C4 at `["A"]` vs `["A", "B"]`: the insert line it produces has
one of the four tag shapes. -/
theorem C4_tag_shapes_witness : tag_shape "+ B" :=
  C4_tag_shapes ["A"] ["A", "B"] (ndiff ["A"] ["A", "B"]) rfl "+ B"
    (by rw [ndiff_single_insert]; exact List.mem_cons_of_mem _ (List.mem_cons_self _ _))

/-- Claim C4 counterexample: on `["abcd"]` vs `["abce"]` the script contains
the guide line `"?    ^\n"`, which is not an Equal, Insert or Delete line — a
fourth variant the spec does not admit. -/
theorem C4_counterexample :
    compute_diff (PyText.list ["abcd"]) (PyText.list ["abce"]) =
      Except.ok ["- abcd", "?    ^\n", "+ abce", "?    ^\n"] ∧
    ¬ ∃ x, "?    ^\n" = "  " ++ x ∨ "?    ^\n" = "+ " ++ x ∨ "?    ^\n" = "- " ++ x := by
  constructor
  · show Except.ok (ndiff ["abcd"] ["abce"]) = _
    rw [ndiff_abcd]
  · rintro ⟨x, hx⟩
    have hlit : "?    ^\n".data = ['?', ' ', ' ', ' ', ' ', '^', '\n'] := rfl
    rcases hx with h | h | h
    · have h2 := congrArg String.data h
      rw [hlit, data_append_blank] at h2
      simp at h2
    · have h2 := congrArg String.data h
      rw [hlit, data_append_plus] at h2
      simp at h2
    · have h2 := congrArg String.data h
      rw [hlit, data_append_dash] at h2
      simp at h2

/-- Claim C7: the worked scenario — script `[Equal(A), Delete(B), Insert(X),
Equal(C)]` and the exact human-mode render with counters 1,2,_,3 / 1,_,2,3,
the deleted line in the light-red span prefixed "-2:", the inserted one in the
light-green span prefixed "+2:". -/
theorem C7_scenario :
    compute_diff (PyText.list ["A\n", "B\n", "C\n"]) (PyText.list ["A\n", "X\n", "C\n"]) =
      Except.ok ["  A\n", "- B\n", "+ X\n", "  C\n"] ∧
    pretty_diff ["  A\n", "- B\n", "+ X\n", "  C\n"] ⟨true, false, false, false⟩ =
      some ("1:  A\n<br><span style='background-color: #ffdddd;'>-2:  B\n</span><br>" ++
        "<span style='background-color: #ddffdd;'>+2:  X\n</span><br>3:  C\n") := by
  constructor
  · show Except.ok (ndiff ["A\n", "B\n", "C\n"] ["A\n", "X\n", "C\n"]) = _
    rw [ndiff_ABC]
  · decide

/-- Claim C10: `compute_diff` takes the element-wise branch exactly when both
inputs are lists; a mixed pair (one list, one raw string) yields an error and
no edit script. -/
theorem C10_mixed_inputs :
    (∀ l1 l2 : List String, compute_diff (PyText.list l1) (PyText.list l2) =
      Except.ok (ndiff l1 l2)) ∧
    (∀ (l : List String) (s : String),
      ∃ e, compute_diff (PyText.list l) (PyText.str s) = Except.error e) ∧
    (∀ (s : String) (l : List String),
      ∃ e, compute_diff (PyText.str s) (PyText.list l) = Except.error e) :=
  ⟨fun _ _ => rfl, fun _ _ => ⟨_, rfl⟩, fun _ _ => ⟨_, rfl⟩⟩

/-- Claim C8: with `show_only_changes` in machine mode every rendered line
starts with '+' or '-': every Equal line is dropped, with no cross-reference
exception, so no line of the output has the unchanged-line format. -/
theorem C8_machine_only_changes (diff : List String) (o : RenderOpts)
    (hai : o.format_for_ai = true) (hso : o.show_only_changes = true)
    (out : List String) (h : pretty_lines diff o diff 0 0 = some out) :
    ∀ l ∈ out, py_at0 l = some '+' ∨ py_at0 l = some '-' :=
  pretty_lines_machine_go diff o hai hso diff 0 0 out h

/-- Witness for C8 on the diff `["  A", "+ B"]`. -/
theorem C8_machine_only_changes_witness :
    pretty_lines ["  A", "+ B"] ⟨true, false, true, true⟩ ["  A", "+ B"] 0 0 =
      some ["+1:  B"] ∧
    ∀ l ∈ ["+1:  B"], py_at0 l = some '+' ∨ py_at0 l = some '-' :=
  ⟨by decide, C8_machine_only_changes ["  A", "+ B"] ⟨true, false, true, true⟩ rfl rfl
    ["+1:  B"] (by decide)⟩

theorem string_empty_append (s : String) : "" ++ s = s := by
  cases s with | mk l => rfl

theorem string_append_empty (s : String) : s ++ "" = s := by
  cases s with | mk l => exact congrArg String.mk (List.append_nil l)

/-- The counters of `pretty_step` never decrease. -/
theorem pretty_step_mono (diff : List String) (o : RenderOpts) (n1 n2 : Nat)
    (line : String) :
    n1 ≤ (pretty_step diff o n1 n2 line).1 ∧ n2 ≤ (pretty_step diff o n1 n2 line).2.1 := by
  unfold pretty_step
  by_cases h1 : py_at0 line = some ' '
  · rw [if_pos h1]
    by_cases h2 : o.show_only_changes = true
    · rw [if_pos h2]
      by_cases h3 : o.format_for_ai = true
      · rw [if_pos h3]
        exact ⟨le_rfl, le_rfl⟩
      · rw [if_neg h3]
        by_cases h4 : has_changed_twin diff (process_content o (py_drop 2 line)) = true
        · rw [if_pos h4]
          exact ⟨le_rfl, le_rfl⟩
        · rw [if_neg h4]
          exact ⟨le_rfl, le_rfl⟩
    · rw [if_neg h2]
      exact ⟨Nat.le_succ n1, Nat.le_succ n2⟩
  · rw [if_neg h1]
    by_cases h2 : py_at0 line = some '+'
    · rw [if_pos h2]
      exact ⟨le_rfl, Nat.le_succ n2⟩
    · rw [if_neg h2]
      by_cases h3 : py_at0 line = some '-'
      · rw [if_pos h3]
        exact ⟨Nat.le_succ n1, le_rfl⟩
      · rw [if_neg h3]
        exact ⟨le_rfl, le_rfl⟩

/-- Claim C2 (amended): Insert always increments exactly the after-counter and
stamps it into the line, Delete the before-counter; Equal increments both and
stamps the before value, but only when `show_only_changes` is off — under
`show_only_changes` an Equal op moves NEITHER counter (even when its line is
shown through the cross-reference); an unrecognized tag moves nothing; the
counters never decrease. -/
theorem C2_counter_policy (diff : List String) (o : RenderOpts) (n1 n2 : Nat)
    (line : String) :
    (py_at0 line = some ' ' → o.show_only_changes = false →
      (pretty_step diff o n1 n2 line).1 = n1 + 1 ∧
      (pretty_step diff o n1 n2 line).2.1 = n2 + 1 ∧
      ∃ tail, (pretty_step diff o n1 n2 line).2.2 =
        [toString (n1 + 1) ++ ": " ++ tail]) ∧
    (py_at0 line = some ' ' → o.show_only_changes = true →
      (pretty_step diff o n1 n2 line).1 = n1 ∧
      (pretty_step diff o n1 n2 line).2.1 = n2) ∧
    (py_at0 line = some '+' →
      (pretty_step diff o n1 n2 line).1 = n1 ∧
      (pretty_step diff o n1 n2 line).2.1 = n2 + 1 ∧
      ∃ pre tail, (pretty_step diff o n1 n2 line).2.2 =
        [pre ++ ("+" ++ toString (n2 + 1) ++ ": ") ++ tail]) ∧
    (py_at0 line = some '-' →
      (pretty_step diff o n1 n2 line).1 = n1 + 1 ∧
      (pretty_step diff o n1 n2 line).2.1 = n2 ∧
      ∃ pre tail, (pretty_step diff o n1 n2 line).2.2 =
        [pre ++ ("-" ++ toString (n1 + 1) ++ ": ") ++ tail]) ∧
    (n1 ≤ (pretty_step diff o n1 n2 line).1 ∧ n2 ≤ (pretty_step diff o n1 n2 line).2.1) := by
  refine ⟨?_, ?_, ?_, ?_, ?_⟩
  · intro ht hso
    have hso2 : ¬ o.show_only_changes = true := by simp [hso]
    unfold pretty_step
    rw [if_pos ht, if_neg hso2]
    refine ⟨rfl, rfl, ?_⟩
    split_ifs
    · exact ⟨" " ++ process_content o (py_drop 2 line), by rw [String.append_assoc]⟩
    · exact ⟨" " ++ "[Blank Line]", by rw [String.append_assoc]⟩
  · intro ht hso
    unfold pretty_step
    rw [if_pos ht, if_pos hso]
    split_ifs <;> exact ⟨rfl, rfl⟩
  · intro ht
    have ht1 : ¬ py_at0 line = some ' ' := by simp [ht]
    unfold pretty_step
    rw [if_neg ht1, if_pos ht]
    refine ⟨rfl, rfl, ?_⟩
    split_ifs
    · exact ⟨"", " " ++ process_content o (py_drop 2 line),
        by simp only [String.append_assoc, string_empty_append]⟩
    · exact ⟨"", " " ++ "[Blank Line]",
        by simp only [String.append_assoc, string_empty_append]⟩
    · exact ⟨"<span style='background-color: #ddffdd;'>",
        " " ++ (process_content o (py_drop 2 line) ++ "</span>"),
        by simp only [String.append_assoc]⟩
    · exact ⟨"<span style='background-color: #ddffdd;'>",
        " " ++ ("[Blank Line]" ++ "</span>"), by simp only [String.append_assoc]⟩
  · intro ht
    have ht1 : ¬ py_at0 line = some ' ' := by simp [ht]
    have ht2 : ¬ py_at0 line = some '+' := by simp [ht]
    unfold pretty_step
    rw [if_neg ht1, if_neg ht2, if_pos ht]
    refine ⟨rfl, rfl, ?_⟩
    split_ifs
    · exact ⟨"", " " ++ process_content o (py_drop 2 line),
        by simp only [String.append_assoc, string_empty_append]⟩
    · exact ⟨"", " " ++ "[Blank Line]",
        by simp only [String.append_assoc, string_empty_append]⟩
    · exact ⟨"<span style='background-color: #ffdddd;'>",
        " " ++ (process_content o (py_drop 2 line) ++ "</span>"),
        by simp only [String.append_assoc]⟩
    · exact ⟨"<span style='background-color: #ffdddd;'>",
        " " ++ ("[Blank Line]" ++ "</span>"), by simp only [String.append_assoc]⟩
  · exact pretty_step_mono diff o n1 n2 line

/-- Witness for C2 on the Insert arm at counters (0, 0). -/
theorem C2_counter_policy_witness :
    (pretty_step ["+ A"] ⟨true, false, false, false⟩ 0 0 "+ A").1 = 0 ∧
    (pretty_step ["+ A"] ⟨true, false, false, false⟩ 0 0 "+ A").2.1 = 0 + 1 ∧
    ∃ pre tail, (pretty_step ["+ A"] ⟨true, false, false, false⟩ 0 0 "+ A").2.2 =
      [pre ++ ("+" ++ toString (0 + 1) ++ ": ") ++ tail] :=
  (C2_counter_policy ["+ A"] ⟨true, false, false, false⟩ 0 0 "+ A").2.2.1 (by decide)

/-- Claim C2 counterexample: under `show_only_changes` (human mode) an Equal
op's line is emitted through the cross-reference, yet neither counter moves —
against the claimed unconditional increment-both policy for Equal. -/
theorem C2_counterexample :
    (pretty_step ["  A", "- A"] ⟨true, false, false, true⟩ 0 0 "  A").1 = 0 ∧
    (pretty_step ["  A", "- A"] ⟨true, false, false, true⟩ 0 0 "  A").2.1 = 0 ∧
    (pretty_step ["  A", "- A"] ⟨true, false, false, true⟩ 0 0 "  A").2.2 ≠ [] := by
  decide

/-- Claim C3 (amended): under `show_only_changes` in human mode an Equal op
moves neither counter, and its line is shown — wrapped in a plain `<span>`, or
as "[Blank Line]" when the processed content is empty — exactly when some line
of the full script whose RAW tail stripped of whitespace equals THIS line's
PROCESSED content carries a '+' or '-' indicator.  The code compares the
others' post-strip text against this line's post-options content, not
post-strip against post-strip as the spec says, and the shown line carries a
span wrapper. -/
theorem C3_equal_crossref (diff : List String) (o : RenderOpts) (n1 n2 : Nat)
    (line : String) (htag : py_at0 line = some ' ')
    (hso : o.show_only_changes = true) (hai : o.format_for_ai = false) :
    (pretty_step diff o n1 n2 line).1 = n1 ∧
    (pretty_step diff o n1 n2 line).2.1 = n2 ∧
    ((pretty_step diff o n1 n2 line).2.2 ≠ [] ↔
      ∃ cl ∈ diff, py_strip (py_drop 2 cl) = process_content o (py_drop 2 line) ∧
        (py_at0 cl = some '+' ∨ py_at0 cl = some '-')) ∧
    (∀ l ∈ (pretty_step diff o n1 n2 line).2.2,
      l = "<span>" ++ process_content o (py_drop 2 line) ++ "</span>" ∨
      l = "[Blank Line]") := by
  have hai2 : ¬ o.format_for_ai = true := by simp [hai]
  have hstep : pretty_step diff o n1 n2 line =
      (if has_changed_twin diff (process_content o (py_drop 2 line)) then
        (n1, n2, [if process_content o (py_drop 2 line) ≠ "" then
          "<span>" ++ process_content o (py_drop 2 line) ++ "</span>"
          else "[Blank Line]"])
       else (n1, n2, [])) := by
    unfold pretty_step
    rw [if_pos htag, if_pos hso, if_neg hai2]
  rw [hstep]
  by_cases htw : has_changed_twin diff (process_content o (py_drop 2 line)) = true
  · rw [if_pos htw]
    simp only [has_changed_twin, List.any_eq_true, decide_eq_true_eq] at htw
    refine ⟨rfl, rfl, iff_of_true (by simp) htw, ?_⟩
    intro l hl
    have hl2 := List.mem_singleton.mp hl
    subst hl2
    split_ifs
    · exact Or.inl rfl
    · exact Or.inr rfl
  · rw [if_neg htw]
    simp only [has_changed_twin, List.any_eq_true, decide_eq_true_eq] at htw
    exact ⟨rfl, rfl, iff_of_false (by simp) htw,
      fun l hl => absurd hl (List.not_mem_nil l)⟩

/-- Witness for C3 at `diff = ["  x", "- x"]` with stripping on: the Equal
line is shown through the cross-reference and the counters stay at (0, 0). -/
theorem C3_equal_crossref_witness :
    (pretty_step ["  x", "- x"] ⟨true, true, false, true⟩ 0 0 "  x").1 = 0 ∧
    (pretty_step ["  x", "- x"] ⟨true, true, false, true⟩ 0 0 "  x").2.1 = 0 ∧
    ((pretty_step ["  x", "- x"] ⟨true, true, false, true⟩ 0 0 "  x").2.2 ≠ [] ↔
      ∃ cl ∈ ["  x", "- x"],
        py_strip (py_drop 2 cl) = process_content ⟨true, true, false, true⟩ (py_drop 2 "  x") ∧
        (py_at0 cl = some '+' ∨ py_at0 cl = some '-')) ∧
    (∀ l ∈ (pretty_step ["  x", "- x"] ⟨true, true, false, true⟩ 0 0 "  x").2.2,
      l = "<span>" ++ process_content ⟨true, true, false, true⟩ (py_drop 2 "  x") ++ "</span>" ∨
      l = "[Blank Line]") :=
  C3_equal_crossref ["  x", "- x"] ⟨true, true, false, true⟩ 0 0 "  x" (by decide) rfl rfl

/-- Claim C3 counterexample: the diff `["   A ", "-  A "]` rendered with
`show_only_changes` and no stripping.  The Delete line's post-strip content
equals the Equal line's post-strip content — by the claim the Equal line must
be shown — yet the output holds only the Delete line: the code compared the
stripped "A" against the unprocessed content " A " and suppressed the line. -/
theorem C3_counterexample :
    py_strip (py_drop 2 "   A ") = py_strip (py_drop 2 "-  A ") ∧
    py_at0 "-  A " = some '-' ∧
    pretty_diff ["   A ", "-  A "] ⟨false, false, false, true⟩ =
      some "<span style='background-color: #ffdddd;'>-1:   A </span>" := by
  decide

/-- Claim C5 (amended): an op whose tag is none of the three recognized ones
is SILENTLY SKIPPED: no output, no counter movement, no failure — there is no
fail-fast path in the renderer. -/
theorem C5_unknown_tag (diff : List String) (o : RenderOpts) (n1 n2 : Nat)
    (line : String) (h1 : py_at0 line ≠ some ' ') (h2 : py_at0 line ≠ some '+')
    (h3 : py_at0 line ≠ some '-') :
    pretty_step diff o n1 n2 line = (n1, n2, []) := by
  unfold pretty_step
  rw [if_neg h1, if_neg h2, if_neg h3]

/-- Witness for C5 on a '?' guide line. -/
theorem C5_unknown_tag_witness :
    pretty_step ["? x"] ⟨true, true, false, false⟩ 0 0 "? x" = (0, 0, []) :=
  C5_unknown_tag ["? x"] ⟨true, true, false, false⟩ 0 0 "? x" (by decide) (by decide)
    (by decide)

/-- Claim C5 counterexample: the whole render of a script holding only an
unrecognized ('?') op SUCCEEDS and returns the empty rendering — the renderer
recovers by skipping, it does not fail fast. -/
theorem C5_counterexample :
    pretty_diff ["? x"] ⟨true, false, false, false⟩ = some "" ∧
    pretty_step ["? x"] ⟨true, false, false, false⟩ 0 0 "? x" = (0, 0, []) := by
  decide

/-- Claim C6: with `strip_whitespace` and `escape_html` both on, the rendered
content is `html_escape (py_strip raw)` — stripped first, then escaped — and
the counter prefix and span decoration are attached around that already-escaped
content, so prefixes and decoration are never escaped; in particular the raw
unit "  <b>  " yields the content "&lt;b&gt;". -/
theorem C6_strip_then_escape (diff : List String) (o : RenderOpts) (n1 n2 : Nat)
    (line : String) (hs : o.strip_whitespace = true) (he : o.escape_html = true)
    (hne : html_escape (py_strip (py_drop 2 line)) ≠ "") :
    (py_at0 line = some ' ' → o.show_only_changes = false →
      (pretty_step diff o n1 n2 line).2.2 =
        [toString (n1 + 1) ++ ": " ++ " " ++ html_escape (py_strip (py_drop 2 line))]) ∧
    (py_at0 line = some '+' → o.format_for_ai = true →
      (pretty_step diff o n1 n2 line).2.2 =
        ["+" ++ toString (n2 + 1) ++ ": " ++ " " ++ html_escape (py_strip (py_drop 2 line))]) ∧
    (py_at0 line = some '+' → o.format_for_ai = false →
      (pretty_step diff o n1 n2 line).2.2 =
        ["<span style='background-color: #ddffdd;'>" ++ "+" ++ toString (n2 + 1) ++ ": " ++
          " " ++ html_escape (py_strip (py_drop 2 line)) ++ "</span>"]) ∧
    (py_at0 line = some '-' → o.format_for_ai = true →
      (pretty_step diff o n1 n2 line).2.2 =
        ["-" ++ toString (n1 + 1) ++ ": " ++ " " ++ html_escape (py_strip (py_drop 2 line))]) ∧
    (py_at0 line = some '-' → o.format_for_ai = false →
      (pretty_step diff o n1 n2 line).2.2 =
        ["<span style='background-color: #ffdddd;'>" ++ "-" ++ toString (n1 + 1) ++ ": " ++
          " " ++ html_escape (py_strip (py_drop 2 line)) ++ "</span>"]) ∧
    html_escape (py_strip "  <b>  ") = "&lt;b&gt;" := by
  have hc : process_content o (py_drop 2 line) = html_escape (py_strip (py_drop 2 line)) := by
    unfold process_content
    rw [if_pos hs, if_pos he]
  refine ⟨?_, ?_, ?_, ?_, ?_, by decide⟩
  · intro ht hso
    have hso2 : ¬ o.show_only_changes = true := by simp [hso]
    unfold pretty_step
    rw [if_pos ht, if_neg hso2, hc, if_pos hne]
  · intro ht hfa
    have ht1 : ¬ py_at0 line = some ' ' := by simp [ht]
    unfold pretty_step
    rw [if_neg ht1, if_pos ht, if_pos hfa, hc, if_pos hne]
  · intro ht hfa
    have ht1 : ¬ py_at0 line = some ' ' := by simp [ht]
    have hfa2 : ¬ o.format_for_ai = true := by simp [hfa]
    unfold pretty_step
    rw [if_neg ht1, if_pos ht, if_neg hfa2, hc, if_pos hne]
  · intro ht hfa
    have ht1 : ¬ py_at0 line = some ' ' := by simp [ht]
    have ht2 : ¬ py_at0 line = some '+' := by simp [ht]
    unfold pretty_step
    rw [if_neg ht1, if_neg ht2, if_pos ht, if_pos hfa, hc, if_pos hne]
  · intro ht hfa
    have ht1 : ¬ py_at0 line = some ' ' := by simp [ht]
    have ht2 : ¬ py_at0 line = some '+' := by simp [ht]
    have hfa2 : ¬ o.format_for_ai = true := by simp [hfa]
    unfold pretty_step
    rw [if_neg ht1, if_neg ht2, if_pos ht, if_neg hfa2, hc, if_pos hne]

/-- Witness for C6 on an Insert op with raw unit "  <b>  " in machine mode. -/
theorem C6_strip_then_escape_witness :
    (pretty_step ["+   <b>  "] ⟨true, true, true, false⟩ 0 0 "+   <b>  ").2.2 =
      ["+" ++ toString (0 + 1) ++ ": " ++ " " ++ html_escape (py_strip (py_drop 2 "+   <b>  "))] :=
  (C6_strip_then_escape ["+   <b>  "] ⟨true, true, true, false⟩ 0 0 "+   <b>  " rfl rfl
    (by decide)).2.1 (by decide) rfl

/-- Claim C9 (amended): the placeholder is driven by the PROCESSED content:
whenever the content after the optional strip and escape is the empty string,
every line the op emits contains "[Blank Line]".  (When stripping is off a
whitespace-only unit has nonempty processed content and renders as that
whitespace, not as the placeholder — the spec's "zero-length after stripping"
trigger is wrong for that configuration, see the counterexample.) -/
theorem C9_blank_placeholder (diff : List String) (o : RenderOpts) (n1 n2 : Nat)
    (line : String) (hempty : process_content o (py_drop 2 line) = "") :
    ∀ l ∈ (pretty_step diff o n1 n2 line).2.2,
      ∃ pre post, l = pre ++ "[Blank Line]" ++ post := by
  intro l hl
  unfold pretty_step at hl
  rw [hempty] at hl
  simp only [ne_eq, not_true_eq_false, if_false] at hl
  by_cases h1 : py_at0 line = some ' '
  · rw [if_pos h1] at hl
    by_cases h2 : o.show_only_changes = true
    · rw [if_pos h2] at hl
      by_cases h3 : o.format_for_ai = true
      · rw [if_pos h3] at hl
        exact absurd hl (List.not_mem_nil l)
      · rw [if_neg h3] at hl
        by_cases h4 : has_changed_twin diff "" = true
        · rw [if_pos h4] at hl
          have hl2 := List.mem_singleton.mp hl
          subst hl2
          exact ⟨"", "", by rw [string_append_empty, string_empty_append]⟩
        · rw [if_neg h4] at hl
          exact absurd hl (List.not_mem_nil l)
    · rw [if_neg h2] at hl
      have hl2 := List.mem_singleton.mp hl
      subst hl2
      exact ⟨toString (n1 + 1) ++ ": " ++ " ", "", by rw [string_append_empty]⟩
  · rw [if_neg h1] at hl
    by_cases h2 : py_at0 line = some '+'
    · rw [if_pos h2] at hl
      have hl2 := List.mem_singleton.mp hl
      subst hl2
      by_cases h3 : o.format_for_ai = true
      · rw [if_pos h3]
        exact ⟨"+" ++ toString (n2 + 1) ++ ": " ++ " ", "", by rw [string_append_empty]⟩
      · rw [if_neg h3]
        exact ⟨"<span style='background-color: #ddffdd;'>" ++ "+" ++ toString (n2 + 1) ++
          ": " ++ " ", "</span>", by rfl⟩
    · rw [if_neg h2] at hl
      by_cases h3 : py_at0 line = some '-'
      · rw [if_pos h3] at hl
        have hl2 := List.mem_singleton.mp hl
        subst hl2
        by_cases h4 : o.format_for_ai = true
        · rw [if_pos h4]
          exact ⟨"-" ++ toString (n1 + 1) ++ ": " ++ " ", "", by rw [string_append_empty]⟩
        · rw [if_neg h4]
          exact ⟨"<span style='background-color: #ffdddd;'>" ++ "-" ++ toString (n1 + 1) ++
            ": " ++ " ", "</span>", by rfl⟩
      · rw [if_neg h3] at hl
        exact absurd hl (List.not_mem_nil l)

/-- Witness for C9 on a whitespace-only Delete unit with stripping on. -/
theorem C9_blank_placeholder_witness :
    process_content ⟨true, true, false, false⟩ (py_drop 2 "-  ") = "" ∧
    ∀ l ∈ (pretty_step ["-  "] ⟨true, true, false, false⟩ 0 0 "-  ").2.2,
      ∃ pre post, l = pre ++ "[Blank Line]" ++ post :=
  ⟨by decide, C9_blank_placeholder ["-  "] ⟨true, true, false, false⟩ 0 0 "-  " (by decide)⟩

/-- Claim C9 counterexample: a Delete op whose unit is whitespace-only — so its
content is zero-length after stripping — rendered in machine mode WITHOUT
stripping shows the raw whitespace ("-1:   ", length 6), not "[Blank Line]". -/
theorem C9_counterexample :
    py_strip (py_drop 2 "-  ") = "" ∧
    pretty_diff ["-  "] ⟨true, false, true, false⟩ = some "-1:   " ∧
    ¬ ∃ pre post, "-1:   " = pre ++ "[Blank Line]" ++ post := by
  refine ⟨by decide, by decide, ?_⟩
  rintro ⟨pre, post, h⟩
  have h1 : ("-1:   " : String).length = 6 := rfl
  have h2 : ("[Blank Line]" : String).length = 12 := rfl
  rw [h, String.length_append, String.length_append, h2] at h1
  omega


end SeoDiff
